import Mathlib

/-!
Shallow embedding of the Transcript Consolidation Pipeline of the
radio-transcription tool (source files `phrase_filtering.py`, `utils.py`,
`config.py`).

Modelling conventions:
* Python `str` is modelled as `List Char` (`Str`); `String` literals are
  converted with `str`.
* Python `float` timestamps and scores are modelled as exact rationals
  (`ℚ`): the pipeline only stores, compares and min/maxes them.  Float
  arithmetic (similarity scores, stopword ratios, the 35% cap) is
  modelled by `PRat`, exact fractions with positive denominators and no
  normalisation; the constants involved (0.35, 0.4, 0.5, 0.8, 0.9, 0.2,
  ratios k/n of word counts) are far apart relative to double rounding
  error at every comparison the pipeline performs, so the exact-fraction
  model decides every comparison the same way the float code does.
* Python `str.lower` is modelled per character for the ASCII range, which
  covers every string the pipeline and its configuration contain.
* Python dicts (insertion ordered, `del` + re-assignment moves a key to
  the end) are modelled as association lists with exactly those semantics.
-/

set_option maxRecDepth 200000

abbrev Str := List Char

def str (s : String) : Str := s.data

/-- Exact fractions with (by construction) positive denominators,
modelling the float arithmetic of the pipeline without normalisation,
so that every operation reduces in the kernel. -/
structure PRat where
  num : ℤ
  den : ℤ
deriving DecidableEq, Repr

namespace PRat

def ofNat (n : ℕ) : PRat := ⟨n, 1⟩

def div (a b : PRat) : PRat := ⟨a.num * b.den, a.den * b.num⟩

def add (a b : PRat) : PRat := ⟨a.num * b.den + b.num * a.den, a.den * b.den⟩

def mul (a b : PRat) : PRat := ⟨a.num * b.num, a.den * b.den⟩

/-- Fraction order by cross-multiplication (correct for positive
denominators, which every value built by the pipeline has). -/
instance : LE PRat := ⟨fun a b => a.num * b.den ≤ b.num * a.den⟩

instance : LT PRat := ⟨fun a b => a.num * b.den < b.num * a.den⟩

instance (a b : PRat) : Decidable (a ≤ b) :=
  inferInstanceAs (Decidable (a.num * b.den ≤ b.num * a.den))

instance (a b : PRat) : Decidable (a < b) :=
  inferInstanceAs (Decidable (a.num * b.den < b.num * a.den))

/-- Python `min(x, y)`: the second argument only when strictly smaller. -/
def pmin (a b : PRat) : PRat := if b < a then b else a

/-- Python `int(x)` for the non-negative values it is applied to. -/
def floorNat (a : PRat) : ℕ := a.num.toNat / a.den.toNat

end PRat

/-- ASCII lower-casing of one character, modelling Python `str.lower`
on the character range the pipeline's data uses. -/
def toLowerC (c : Char) : Char :=
  if c = 'A' then 'a' else if c = 'B' then 'b' else if c = 'C' then 'c'
  else if c = 'D' then 'd' else if c = 'E' then 'e' else if c = 'F' then 'f'
  else if c = 'G' then 'g' else if c = 'H' then 'h' else if c = 'I' then 'i'
  else if c = 'J' then 'j' else if c = 'K' then 'k' else if c = 'L' then 'l'
  else if c = 'M' then 'm' else if c = 'N' then 'n' else if c = 'O' then 'o'
  else if c = 'P' then 'p' else if c = 'Q' then 'q' else if c = 'R' then 'r'
  else if c = 'S' then 's' else if c = 'T' then 't' else if c = 'U' then 'u'
  else if c = 'V' then 'v' else if c = 'W' then 'w' else if c = 'X' then 'x'
  else if c = 'Y' then 'y' else if c = 'Z' then 'z' else c

def lowerStr (s : Str) : Str := s.map toLowerC

/-- Python whitespace (the characters `str.split`/`str.strip` split on). -/
def isWs (c : Char) : Bool :=
  c = ' ' || c = '\t' || c = '\n' || c = '\x0d' || c = '\x0b' || c = '\x0c'

/-- Python `str.strip()`. -/
def stripStr (s : Str) : Str :=
  ((s.dropWhile isWs).reverse.dropWhile isWs).reverse

def splitWsGo : Str → Str → List Str
  | [], cur => if cur.isEmpty then [] else [cur.reverse]
  | c :: rest, cur =>
    if isWs c then
      if cur.isEmpty then splitWsGo rest []
      else cur.reverse :: splitWsGo rest []
    else splitWsGo rest (c :: cur)

/-- Python `str.split()` with no separator: maximal runs of
non-whitespace characters, no empty tokens. -/
def splitWs (s : Str) : List Str := splitWsGo s []

/-- Python `" ".join(parts)`. -/
def joinSpace (parts : List Str) : Str := List.intercalate [' '] parts

/-- Python `needle in haystack` (contiguous substring test). -/
def isSubstr : Str → Str → Bool
  | n, [] => List.isPrefixOf n []
  | n, d :: t => List.isPrefixOf n (d :: t) || isSubstr n t

/-- Python `haystack.find(needle)`: index of the first occurrence. -/
def findSub : Str → Str → Option ℕ
  | n, [] => if List.isPrefixOf n [] then some 0 else none
  | n, d :: t => if List.isPrefixOf n (d :: t) then some 0 else (findSub n t).map (· + 1)

/-- Fuelled scan for `countSub`: every step consumes at least one
character, so fuel equal to the haystack length is always enough. -/
def countSubGo (n : Str) : ℕ → Str → ℕ
  | 0, _ => 0
  | _, [] => 0
  | fuel + 1, d :: t =>
    if List.isPrefixOf n (d :: t) then
      1 + countSubGo n fuel (t.drop (n.length - 1))
    else countSubGo n fuel t

/-- Python `haystack.count(needle)` for a non-empty needle:
non-overlapping occurrences, scanning greedily from the left. -/
def countSub (n h : Str) : ℕ :=
  match n with
  | [] => h.length + 1
  | _ => countSubGo n h.length h

/-- Fuelled scan for `replaceAll`, fuel as in `countSubGo`. -/
def replaceAllGo (pat rep : Str) : ℕ → Str → Str
  | 0, s => s
  | _, [] => []
  | fuel + 1, c :: t =>
    if List.isPrefixOf pat (c :: t) then
      rep ++ replaceAllGo pat rep fuel (t.drop (pat.length - 1))
    else c :: replaceAllGo pat rep fuel t

/-- Python `s.replace(pat, rep)` for a non-empty pattern:
non-overlapping replacement, scanning from the left. -/
def replaceAll (pat rep s : Str) : Str :=
  if pat.isEmpty then s else replaceAllGo pat rep s.length s

/-- Python `sorted(l, key=f, reverse=True)` / `l.sort(key=f, reverse=True)`:
stable sort, numerically descending. -/
def sortDescBy (f : α → ℕ) (l : List α) : List α :=
  List.insertionSort (fun a b => f b ≤ f a) l

/-- `len(p.split())`, the word count of a phrase. -/
def word_count (p : Str) : ℕ := (splitWs p).length

/-! ## Artifact Filter (`phrase_filtering.is_whisper_artifact`) -/

/-- The indicator list of `phrase_filtering.is_whisper_artifact`. -/
def whisper_prompt_indicators : List Str :=
  [str "deze transcriptie moet alle belangrijke woorden en zinnen bevatten",
   str "maar muziekteksten en jingles kunnen worden overgeslagen",
   str "transcriptie moet alle belangrijke woorden en zinnen bevatten",
   str "muziekteksten en jingles kunnen worden overgeslagen",
   str "transcriptie",
   str "whisper",
   str "openai",
   str "api",
   str "prompt",
   str "instruction",
   str "alle belangrijke woorden",
   str "zinnen bevatten",
   str "muziekteksten en jingles",
   str "kunnen worden overgeslagen",
   str "radio-uitzending",
   str "nieuws discussies interviews",
   str "focus op spraak",
   str "niet op muziek",
   str "belangrijke woorden en zinnen",
   str "muziekteksten en jingles kunnen worden overgeslagen"]

/-- The suspicious-pattern list of `phrase_filtering.is_whisper_artifact`. -/
def suspicious_patterns : List Str :=
  [str "deze transcriptie",
   str "transcriptie moet",
   str "muziekteksten en jingles",
   str "belangrijke woorden",
   str "zinnen bevatten",
   str "overgeslagen",
   str "focus op spraak",
   str "niet op muziek",
   str "nederlandse radio-uitzending",
   str "nieuws discussies interviews",
   str "radio-uitzending met nieuws",
   str "discussies interviews en gesprekken",
   str "focus op spraak en gesprekken",
   str "transcriptie moet alle belangrijke",
   str "woorden en zinnen bevatten",
   str "maar muziekteksten en jingles",
   str "kunnen worden overgeslagen"]

/-- `phrase_filtering.is_whisper_artifact` (lines 1990-2087).  The word
repetition check is written with the final count: the source increments a
counter per occurrence and fires as soon as it exceeds 3, which returns
true exactly when some word longer than 3 characters occurs more than 3
times in total. -/
def is_whisper_artifact (t : Str) : Bool :=
  if t.isEmpty then false
  else
    let tl := stripStr (lowerStr t)
    if whisper_prompt_indicators.any (fun ind => isSubstr ind tl) then true
    else if suspicious_patterns.any (fun pat => isSubstr pat tl) then true
    else
      let ws := splitWs tl
      let rep3 : Bool :=
        if 3 < ws.length then
          if 20 < (replaceAll [' '] [] tl).length then
            (List.range (ws.length - 2)).any (fun i =>
              let ph := joinSpace ((ws.drop i).take 3)
              decide (10 < ph.length) && decide (1 < countSub ph tl))
          else false
        else false
      if rep3 then true
      else if ws.any (fun w => decide (3 < w.length) && decide (3 < ws.count w)) then true
      else if 100 < t.length then
        (List.range (t.length - 20)).any (fun i =>
          decide (2 < countSub ((t.drop i).take 20) t))
      else false

namespace Utils

/-- The indicator list of `utils.is_whisper_artifact`. -/
def whisper_prompt_indicators : List Str :=
  [str "transcriptie",
   str "nederlandse radio-uitzending",
   str "nieuws discussies interviews",
   str "focus op spraak",
   str "niet op muziek",
   str "belangrijke woorden",
   str "zinnen bevatten",
   str "muziekteksten en jingles",
   str "kunnen worden overgeslagen",
   str "radio-uitzending",
   str "nieuws discussies interviews",
   str "focus op spraak",
   str "niet op muziek",
   str "belangrijke woorden en zinnen",
   str "muziekteksten en jingles kunnen worden overgeslagen"]

/-- The suspicious-pattern list of `utils.is_whisper_artifact`. -/
def suspicious_patterns : List Str :=
  [str "deze transcriptie",
   str "transcriptie moet",
   str "muziekteksten en jingles",
   str "belangrijke woorden",
   str "zinnen bevatten",
   str "overgeslagen",
   str "focus op spraak",
   str "niet op muziek",
   str "nederlandse radio-uitzending",
   str "nieuws discussies interviews",
   str "radio-uitzending met nieuws",
   str "discussies interviews en gesprekken",
   str "focus op spraak en gesprekken"]

/-- `utils.is_whisper_artifact` (utils.py lines 40-100): indicator and
suspicious-pattern substring checks only, guarded by a minimum stripped
length of 10. -/
def is_whisper_artifact (t : Str) : Bool :=
  if t.isEmpty || decide ((stripStr t).length < 10) then false
  else
    let tl := stripStr (lowerStr t)
    whisper_prompt_indicators.any (fun ind => isSubstr ind tl) ||
      suspicious_patterns.any (fun pat => isSubstr pat tl)

end Utils

/-! ## Text similarity and segment merging -/

/-- Leading-run length of equal words, the inner `while` of the
brute-force common-sequence scans. -/
def runLen : List Str → List Str → ℕ
  | x :: xs, y :: ys => if x = y then runLen xs ys + 1 else 0
  | _, _ => 0

/-- Longest common contiguous word run found by the double loop in
`calculate_text_similarity`. -/
def maxCommonRun (w1 w2 : List Str) : ℕ :=
  (List.range w1.length).foldl (fun acc i =>
    (List.range w2.length).foldl (fun acc2 j =>
      max acc2 (runLen (w1.drop i) (w2.drop j))) acc) 0

/-- `phrase_filtering.calculate_text_similarity` (lines 2257-2316). -/
def calculate_text_similarity (t1 t2 : Str) : PRat :=
  if t1.isEmpty || t2.isEmpty then .ofNat 0
  else
    let a := stripStr (lowerStr t1)
    let b := stripStr (lowerStr t2)
    if isSubstr a b || isSubstr b a then ⟨9, 10⟩
    else
      let w1 := splitWs a
      let w2 := splitWs b
      let s1 := w1.toFinset
      let s2 := w2.toFinset
      if s1 = ∅ ∨ s2 = ∅ then .ofNat 0
      else
        let inter := (s1 ∩ s2).card
        let uni := (s1 ∪ s2).card
        if uni = 0 then .ofNat 0
        else
          let base : PRat := (PRat.ofNat inter).div (PRat.ofNat uni)
          let base2 := if 3 ≤ maxCommonRun w1 w2 then base.add ⟨1, 5⟩ else base
          PRat.pmin (.ofNat 1) base2

/-- `phrase_filtering.is_substring_or_similar` (lines 2371-2394). -/
def is_substring_or_similar (t1 t2 : Str) : Bool :=
  if t1.isEmpty || t2.isEmpty then false
  else
    let a := stripStr (lowerStr t1)
    let b := stripStr (lowerStr t2)
    if isSubstr a b || isSubstr b a then true
    else decide ((⟨4, 5⟩ : PRat) < calculate_text_similarity a b)

/-- `phrase_filtering.merge_text_segments` (lines 2318-2369). -/
def merge_text_segments (texts : List Str) : Str :=
  match texts with
  | [] => []
  | [t] => t
  | _ =>
    let unique := (texts.map stripStr).filter (fun t => !t.isEmpty)
    match unique with
    | [] => []
    | [t] => t
    | u =>
      let base := u.foldl (fun acc t => if acc.length < t.length then t else acc) (u.headD [])
      let parts := base :: u.filter (fun t => decide (t ≠ base) && !is_substring_or_similar t base)
      match parts with
      | [p] => p
      | ps => stripStr (replaceAll [' ', ' '] [' '] (joinSpace ps))

/-- One transcriber segment (the Python dict with keys `start`, `end`,
`text`; the Lean field for `end` is `stop` because `end` is reserved). -/
structure Segment where
  start : ℚ
  stop : ℚ
  text : Str
deriving DecidableEq, Repr

/-- The greedy grouping loop of `merge_similar_segments` (fuelled: each
step strictly shrinks the list, so fuel equal to the list length is
always enough): the head segment collects every later unprocessed
segment whose similarity reaches the threshold; a group of two or more
becomes one merged segment with the earliest start, the latest end, and
the merged text. -/
def group_segments (threshold : PRat) : ℕ → List Segment → List Segment
  | 0, l => l
  | _, [] => []
  | fuel + 1, s1 :: rest =>
    let isSim := fun s2 => decide (threshold ≤ calculate_text_similarity s1.text s2.text)
    let similar := rest.filter isSim
    let rest' := rest.filter (fun s2 => !isSim s2)
    let out :=
      if similar.isEmpty then s1
      else
        { start := (similar.map (·.start)).foldl min s1.start
          stop := (similar.map (·.stop)).foldl max s1.stop
          text := merge_text_segments (s1.text :: similar.map (·.text)) }
    out :: group_segments threshold fuel rest'

/-- `phrase_filtering.merge_similar_segments` (lines 2152-2253). -/
def merge_similar_segments (segments : List Segment) (threshold : PRat)
    (target : Option ℚ) : List Segment :=
  if segments.length ≤ 1 then segments
  else
    match target with
    | some t =>
      let ts := segments.filter (fun s => decide (|s.start - t| ≤ 1/2))
      if ts.isEmpty then segments
      else group_segments threshold ts.length
        (ts.filter (fun s => !(stripStr s.text).isEmpty && !is_whisper_artifact s.text))
    | none => group_segments threshold segments.length
        (segments.filter (fun s => !(stripStr s.text).isEmpty && !is_whisper_artifact s.text))

/-! ## Deduplicator (`deduplicate_phrases`) and timestamp lookup -/

abbrev DedupEntry := Str × List ℚ

/-- The `phrase_dict` of `deduplicate_phrases`: a Python dict, modelled
as an insertion-ordered association list. -/
abbrev DedupDict := List (Str × DedupEntry)

/-- `" ".join(phrase.lower().split())`, the normalisation used by the
Deduplicator. -/
def normalize_phrase (p : Str) : Str := joinSpace (splitWs (lowerStr p))

def dict_find (k : Str) (d : DedupDict) : Option DedupEntry :=
  (d.find? (fun e => decide (e.1 = k))).map (·.2)

/-- Python dict assignment `d[k] = v`: update in place when the key is
present, append otherwise. -/
def dict_set (k : Str) (v : DedupEntry) (d : DedupDict) : DedupDict :=
  if d.any (fun e => decide (e.1 = k)) then
    d.map (fun e => if e.1 = k then (k, v) else e)
  else d ++ [(k, v)]

/-- Python `del d[k]`. -/
def dict_del (k : Str) (d : DedupDict) : DedupDict :=
  d.filter (fun e => !decide (e.1 = k))

/-- The body of the `for phrase, timestamps in phrases_with_times` loop
of `deduplicate_phrases` (lines 2105-2144). -/
def dedup_step (d : DedupDict) (x : DedupEntry) : DedupDict :=
  let np := normalize_phrase x.1
  match dict_find np d with
  | some (ep, ets) =>
    let merged := ets ++ x.2
    if ep.length < x.1.length then dict_set np (x.1, merged) d
    else dict_set np (ep, merged) d
  | none =>
    match d.find? (fun e => isSubstr np e.1 || isSubstr e.1 np) with
    | some (k, ep, ets) =>
      let merged := ets ++ x.2
      if ep.length < x.1.length then dict_set np (x.1, merged) (dict_del k d)
      else dict_set k (ep, merged) d
    | none => dict_set np x d

/-- `phrase_filtering.deduplicate_phrases` (lines 2089-2150). -/
def deduplicate_phrases (xs : List DedupEntry) : List DedupEntry :=
  if xs.isEmpty then xs
  else sortDescBy (fun e => e.1.length) ((xs.foldl dedup_step []).map (·.2))

/-- Fuelled first-occurrence deduplication (fuel as in `group_segments`). -/
def dedupKeepFirstGo : ℕ → List Str → List Str
  | 0, l => l
  | _, [] => []
  | fuel + 1, x :: t => x :: dedupKeepFirstGo fuel (t.filter (fun y => !decide (y = x)))

/-- First-occurrence deduplication, the key order a Python dict
comprehension produces when the same key appears twice. -/
def dedupKeepFirst (l : List Str) : List Str := dedupKeepFirstGo l.length l

/-- The keypoint timestamp lookup of `RadioRecorderApp.transcribe_and_extract`
(phrase_filtering.py lines 4389-4398): `keypoint_times` is built by
scanning the given segment list and recording `seg["start"]` for every
segment whose text case-insensitively contains the keypoint.  The dict
comprehension collapses duplicate keypoints to one entry keyed at the
first occurrence, but the inner loop still appends once per duplicate
occurrence, hence the `List.replicate (keypoints.count kp)`. -/
def keypoint_times_lookup (keypoints : List Str) (segs : List Segment) :
    List (Str × List ℚ) :=
  (dedupKeepFirst keypoints).map (fun kp =>
    (kp, (segs.map (fun s =>
      if isSubstr (lowerStr kp) (lowerStr s.text) then
        List.replicate (keypoints.count kp) s.start
      else [])).flatten))

/-- `WHISPER_PROMPT` from config.py line 108: the instruction injected
into the transcriber. -/
def WHISPER_PROMPT : Str :=
  str "Dit is een Nederlandse radio-uitzending met nieuws, discussies, interviews en gesprekken. Focus op spraak en gesprekken, niet op muziek. De transcriptie moet alle belangrijke woorden en zinnen bevatten, maar muziekteksten en jingles kunnen worden overgeslagen."

/-! ## Phrase Merger / Subphrase Eliminator -/

/-- `phrase_filtering.find_common_sequence` (lines 2788-2815): the
longest common contiguous word run (first maximum found, strict
improvement), returned as words of the first list lower-cased. -/
def find_common_sequence (w1 w2 : List Str) : List Str :=
  if w1.isEmpty || w2.isEmpty then []
  else
    let a := w1.map lowerStr
    let b := w2.map lowerStr
    let best := (List.range a.length).foldl (fun st i =>
      (List.range b.length).foldl (fun st2 j =>
        let len := runLen (a.drop i) (b.drop j)
        if st2.1 < len then (len, (a.drop i).take len) else st2) st)
      ((0 : ℕ), ([] : List Str))
    best.2

/-- `phrase_filtering.merge_two_phrases` (lines 2817-2856).  The shared
run must occur surrounded by spaces in both lower-cased phrases; the
merged phrase is reassembled from the before/after parts. -/
def merge_two_phrases (p1 p2 : Str) (common : List Str) : Option Str :=
  if common.isEmpty then none
  else
    let ct : Str := ' ' :: joinSpace common ++ [' ']
    match findSub ct (lowerStr p1), findSub ct (lowerStr p2) with
    | some st1, some st2 =>
      let e1 := st1 + ct.length - 1
      let e2 := st2 + ct.length - 1
      let before1 := stripStr (p1.take st1)
      let after1 := stripStr (p1.drop e1)
      let before2 := stripStr (p2.take st2)
      let after2 := stripStr (p2.drop e2)
      let ctS := stripStr ct
      some (if !before1.isEmpty && !after2.isEmpty then
              stripStr (before1 ++ ' ' :: ctS ++ ' ' :: after2)
            else if !before2.isEmpty && !after1.isEmpty then
              stripStr (before2 ++ ' ' :: ctS ++ ' ' :: after1)
            else if !before1.isEmpty then
              stripStr (before1 ++ ' ' :: ctS ++ ' ' :: after1)
            else if !before2.isEmpty then
              stripStr (before2 ++ ' ' :: ctS ++ ' ' :: after2)
            else ctS)
    | _, _ => none

/-- One candidate comparison of the inner `for j, other_phrase in
enumerate(sorted_phrases)` scan of `merge_overlapping_phrases`
(lines 2731-2759): `other` is `sorted[j]`, `ow` its lowered words; the
state is (best_merge, best_merge_length, merged_with). -/
def merge_scan_step (sorted : List Str) (i : ℕ) (pw : List Str) (j : ℕ)
    (st : Str × ℕ × List ℕ) : Str × ℕ × List ℕ :=
  if 3 ≤ pw.length ∧ 3 ≤ (splitWs (stripStr (lowerStr (sorted.getD j [])))).length then
    if (if min pw.length (splitWs (stripStr (lowerStr (sorted.getD j [])))).length ≤ 4
        then 2 else 3) ≤
        (find_common_sequence pw (splitWs (stripStr (lowerStr (sorted.getD j []))))).length then
      if (⟨2, 5⟩ : PRat) ≤
          (PRat.ofNat (find_common_sequence pw
            (splitWs (stripStr (lowerStr (sorted.getD j []))))).length).div
            (PRat.ofNat (min pw.length
              (splitWs (stripStr (lowerStr (sorted.getD j [])))).length)) then
        match merge_two_phrases (sorted.getD i []) (sorted.getD j [])
            (find_common_sequence pw (splitWs (stripStr (lowerStr (sorted.getD j []))))) with
        | some m =>
          if st.2.1 < (splitWs m).length then
            if st.2.1 + 1 < (splitWs m).length then (m, (splitWs m).length, st.2.2 ++ [j])
            else st
          else st
        | none => st
      else st
    else st
  else st

/-- The inner `for j, other_phrase in enumerate(sorted_phrases)` scan of
`merge_overlapping_phrases`, accumulating (best_merge,
best_merge_length, merged_with); indices equal to `i` or already used
are skipped. -/
def merge_scan (sorted : List Str) (used : List ℕ) (i : ℕ) (pw : List Str) :
    List ℕ → Str × ℕ × List ℕ → Str × ℕ × List ℕ
  | [], st => st
  | j :: js, st =>
    if i = j ∨ j ∈ used then merge_scan sorted used i pw js st
    else merge_scan sorted used i pw js (merge_scan_step sorted i pw j st)

/-- The outer `for i, phrase in enumerate(sorted_phrases)` loop of
`merge_overlapping_phrases`, carrying the used-index set and the output
list. -/
def merge_outer (sorted : List Str) : List ℕ → List ℕ → List Str → List ℕ × List Str
  | [], used, out => (used, out)
  | i :: is, used, out =>
    if i ∈ used then merge_outer sorted is used out
    else
      let phrase := sorted.getD i []
      let pw := splitWs (stripStr (lowerStr phrase))
      let st := merge_scan sorted used i pw (List.range sorted.length)
        (phrase, pw.length, [])
      merge_outer sorted is (used ++ i :: st.2.2) (out ++ [st.1])

/-- The hard-coded `common_words` set of the trailing loop of
`merge_overlapping_phrases` (line 2779). -/
def merge_common_words : List Str :=
  [str "de", str "het", str "een", str "van", str "in", str "op", str "met",
   str "als", str "voor", str "aan", str "er", str "door", str "om", str "tot",
   str "ook", str "maar", str "uit", str "bij", str "over", str "nog",
   str "naar", str "dan", str "of", str "je", str "ik", str "ze", str "zij",
   str "hij", str "wij", str "jij", str "u", str "hun", str "ons", str "mijn",
   str "jouw", str "zijn", str "haar", str "dit", str "dat", str "deze",
   str "die"]

/-- The trailing `for i, phrase in enumerate(sorted_phrases)` loop of
`merge_overlapping_phrases` (lines 2768-2784), which appends phrases
whose index was never marked used. -/
def merge_extra (sorted : List Str) (used : List ℕ) : List ℕ → List Str → List Str
  | [], out => out
  | i :: is, out =>
    if i ∈ used then merge_extra sorted used is out
    else
      let phrase := sorted.getD i []
      let pw := splitWs (stripStr (lowerStr phrase))
      if 3 ≤ pw.length then merge_extra sorted used is (out ++ [phrase])
      else if 2 ≤ pw.length then
        let meaningful := pw.filter (fun w =>
          !decide (w ∈ merge_common_words) && decide (3 ≤ w.length))
        if 1 ≤ meaningful.length then merge_extra sorted used is (out ++ [phrase])
        else merge_extra sorted used is out
      else merge_extra sorted used is out

/-- `phrase_filtering.merge_overlapping_phrases` (lines 2699-2786). -/
def merge_overlapping_phrases (phrases : List Str) : List Str :=
  if phrases.length ≤ 1 then phrases
  else
    let sorted := sortDescBy word_count phrases
    let r := merge_outer sorted (List.range sorted.length) [] []
    merge_extra sorted r.1 (List.range sorted.length) r.2

/-- The containment test of `remove_true_subphrases`: the phrase, padded
with one space on each side, occurs inside a kept phrase with strictly
more words. -/
def subphrase_check (p : Str) (kept : List Str) : Bool :=
  let pl := stripStr (lowerStr p)
  let pw := splitWs pl
  kept.any (fun e =>
    let el := stripStr (lowerStr e)
    decide (pw.length < (splitWs el).length) &&
      isSubstr (' ' :: pl ++ [' ']) (' ' :: el ++ [' ']))

def remove_true_go (kept : List Str) : List Str → List Str
  | [] => kept
  | p :: rest =>
    if subphrase_check p kept then remove_true_go kept rest
    else remove_true_go (kept ++ [p]) rest

/-- `phrase_filtering.remove_true_subphrases` (lines 2859-2900). -/
def remove_true_subphrases (phrases : List Str) : List Str :=
  if phrases.length ≤ 1 then phrases
  else remove_true_go [] (sortDescBy word_count phrases)

/-! ## Stopword-Ratio Filter -/

/-- Stopword occurrences among the words of a phrase. -/
def stop_count (ws : List Str) (stopwords : List Str) : ℕ :=
  ws.countP (fun w => decide (w ∈ stopwords))

/-- The body of the `for kw in phrases` loop of `filter_phrases_robust`
(lines 2608-2659): `none` models `continue`. -/
def surviving_phrase (stopwords : List Str) (kw : Str × ℚ) : Option Str :=
  let phrase := kw.1
  if phrase.isEmpty || !phrase.contains ' ' then none
  else
    let ws := splitWs phrase
    if ws.isEmpty then none
    else
      let sc := stop_count ws stopwords
      let n := ws.length
      let maxAllowed : PRat :=
        if 6 ≤ n then (PRat.ofNat 5).div (.ofNat n)
        else if n = 5 then ⟨4, 5⟩
        else if n = 4 then ⟨3, 4⟩
        else if n = 3 then ⟨2, 3⟩
        else ⟨1, 2⟩
      if 0 < n ∧ (PRat.ofNat sc).div (.ofNat n) ≤ maxAllowed then
        if sc = n then none
        else if n = 2 ∧ sc = 1 then
          let nonstop := (ws.find? (fun w => !decide (w ∈ stopwords))).getD []
          if nonstop.length < 3 then none else some phrase
        else some phrase
      else none

/-- The phrases surviving the per-candidate stopword filtering of
`filter_phrases_robust`. -/
def stopword_survivors (phrases : List (Str × ℚ)) (stopwords : List Str) :
    List Str :=
  phrases.filterMap (surviving_phrase stopwords)

/-- `phrase_filtering.filter_phrases_robust` (lines 2584-2696).  The
unused `max_stopword_ratio` parameter of the source is omitted.  Python
`int(x)` on the non-negative float cap is the floor; 0.35 is 7/20. -/
def filter_phrases_robust (phrases : List (Str × ℚ)) (stopwords : List Str) :
    List Str :=
  if phrases.isEmpty || stopwords.isEmpty then []
  else
    let fs := stopword_survivors phrases stopwords
    if 20 < fs.length then
      let lng := fs.filter (fun p => decide (4 ≤ word_count p))
      let med := fs.filter (fun p => decide (word_count p = 3))
      let two := fs.filter (fun p => decide (word_count p = 2))
      let maxTwo : PRat := PRat.pmin ((PRat.ofNat fs.length).mul ⟨7, 20⟩) (.ofNat two.length)
      let two2 := if maxTwo < (PRat.ofNat two.length) then two.take maxTwo.floorNat else two
      remove_true_subphrases (merge_overlapping_phrases (lng ++ med ++ two2))
    else fs

/-- `phrase_filtering.filter_words_robust` (lines 2903-2935). -/
def filter_words_robust (words : List (Str × ℚ)) (stopwords : List Str) :
    List Str :=
  if words.isEmpty || stopwords.isEmpty then []
  else words.filterMap (fun kw =>
    if kw.1.isEmpty || kw.1.contains ' ' then none
    else if kw.1 ∈ stopwords then none
    else some kw.1)

/-! ## Concrete inputs used by the claim theorems -/

/-- A segment whose text is exactly the injected instruction prompt. -/
def promptSeg : Segment := ⟨7, 9, WHISPER_PROMPT⟩

/-- An ordinary speech segment. -/
def normalSeg : Segment := ⟨0, 2, str "het weer is mooi"⟩

/-- Three phrases for which a second dedup pass finds a further merge:
the third contains both earlier ones, the dict merge consumes only the
first match. -/
def exC2 : List DedupEntry := [(str "ab", [1]), (str "cd", [2]), (str "ab cd", [3])]

/-- A mixed-case text of length 103 whose lower-casing has a 20-character
substring occurring three times, while the original, thanks to the three
differently-cased block starts, has no 20-character substring occurring
more than twice. -/
def sC7 : Str :=
  str "AbcdefghijklmnopqrstaBcdefghijklmnopqrstabCdefghijklmnopqrst0123456789012345678901234567890123456789012"

/-- Two seven-word candidates with an interior three-word shared run and
nineteen two-word fillers: 21 stopword-filter survivors, so the merging
post-processing runs and fuses the stopword-heavy halves. -/
def exC4 : List (Str × ℚ) :=
  [(str "s1 s2 s3 c1 c2 c3 n1", 1), (str "n2 c1 c2 c3 s4 s5 s6", 1),
   (str "f1 g1", 1), (str "f2 g2", 1), (str "f3 g3", 1), (str "f4 g4", 1),
   (str "f5 g5", 1), (str "f6 g6", 1), (str "f7 g7", 1), (str "f8 g8", 1),
   (str "f9 g9", 1), (str "f10 g10", 1), (str "f11 g11", 1), (str "f12 g12", 1),
   (str "f13 g13", 1), (str "f14 g14", 1), (str "f15 g15", 1), (str "f16 g16", 1),
   (str "f17 g17", 1), (str "f18 g18", 1), (str "f19 g19", 1)]

def swC4 : List Str := [str "s1", str "s2", str "s3", str "s4", str "s5", str "s6"]

/-- A four-word phrase, a three-word phrase nested in it, and nineteen
two-word fillers: 21 survivors, so subphrase removal runs and drops the
three-word survivor. -/
def exC5 : List (Str × ℚ) :=
  [(str "de nieuwe corona maatregelen", 1), (str "nieuwe corona maatregelen", 1),
   (str "f1 g1", 1), (str "f2 g2", 1), (str "f3 g3", 1), (str "f4 g4", 1),
   (str "f5 g5", 1), (str "f6 g6", 1), (str "f7 g7", 1), (str "f8 g8", 1),
   (str "f9 g9", 1), (str "f10 g10", 1), (str "f11 g11", 1), (str "f12 g12", 1),
   (str "f13 g13", 1), (str "f14 g14", 1), (str "f15 g15", 1), (str "f16 g16", 1),
   (str "f17 g17", 1), (str "f18 g18", 1), (str "f19 g19", 1)]

/-- One three-word candidate and twenty-one two-word fillers: 22
survivors with no nesting and no overlap, used to instantiate the
hypotheses of the post-processing theorems. -/
def exW : List (Str × ℚ) :=
  [(str "aa1 bb1 cc1", 1),
   (str "f1 g1", 1), (str "f2 g2", 1), (str "f3 g3", 1), (str "f4 g4", 1),
   (str "f5 g5", 1), (str "f6 g6", 1), (str "f7 g7", 1), (str "f8 g8", 1),
   (str "f9 g9", 1), (str "f10 g10", 1), (str "f11 g11", 1), (str "f12 g12", 1),
   (str "f13 g13", 1), (str "f14 g14", 1), (str "f15 g15", 1), (str "f16 g16", 1),
   (str "f17 g17", 1), (str "f18 g18", 1), (str "f19 g19", 1), (str "f20 g20", 1),
   (str "f21 g21", 1)]

/-! ## Claim theorems: concrete evaluations -/

/-- Claim C10: with an empty stopword set, `filter_phrases_robust` and
`filter_words_robust` return the empty list for every candidate list. -/
theorem empty_stopwords_empty_output (phrases words : List (Str × ℚ)) :
    filter_phrases_robust phrases [] = [] ∧ filter_words_robust words [] = [] := by
  constructor <;> simp [filter_phrases_robust, filter_words_robust]

/-- Claim C9: the two scenario-1 segments at threshold 0.5 merge into a
single segment spanning 0.0-4.0 whose text is the longer variant. -/
theorem scenario1_segment_merge :
    merge_similar_segments
      [⟨0, 2, str "het weer wordt morgen zonnig"⟩,
       ⟨2, 4, str "het weer wordt morgen zonnig en warm"⟩] ⟨1, 2⟩ none =
      [⟨0, 4, str "het weer wordt morgen zonnig en warm"⟩] := by decide

/-- Claim C8, counterexample: the two scenario-3 candidates are NOT
merged into a single phrase; `merge_overlapping_phrases` returns both
unchanged as two separate entries. -/
theorem scenario3_no_merge_counterexample :
    merge_overlapping_phrases
      [str "nieuwe maatregelen voor de economie",
       str "maatregelen voor de economie vandaag"] =
      [str "nieuwe maatregelen voor de economie",
       str "maatregelen voor de economie vandaag"] ∧
    str "nieuwe maatregelen voor de economie" ≠
      str "maatregelen voor de economie vandaag" := by decide

/-- Claim C8, amended: the longest common run `maatregelen voor de
economie` (4 words) is found, but `merge_two_phrases` requires the run
surrounded by spaces on both sides in each phrase, which fails at the
phrase boundaries, so the merge returns nothing and both candidates stay
separate. -/
theorem scenario3_merge_rejected :
    find_common_sequence (splitWs (str "nieuwe maatregelen voor de economie"))
        (splitWs (str "maatregelen voor de economie vandaag")) =
      [str "maatregelen", str "voor", str "de", str "economie"] ∧
    merge_two_phrases (str "nieuwe maatregelen voor de economie")
      (str "maatregelen voor de economie vandaag")
      [str "maatregelen", str "voor", str "de", str "economie"] = none := by decide

/-- Claim C1, counterexample: the scenario-5 input does not produce the
timestamp list `[5.0, 40.0, 5.0]` claimed by the spec. -/
theorem dedup_scenario5_counterexample :
    deduplicate_phrases
      [(str "corona maatregelen", [5]), (str "de nieuwe corona maatregelen", [5, 40])] ≠
      [(str "de nieuwe corona maatregelen", [5, 40, 5])] := by decide

/-- Claim C1, amended: the two scenario-5 keypoints deduplicate into one
keypoint with canonical text `de nieuwe corona maatregelen` and
timestamps `[5.0, 5.0, 40.0]` — the dict entry's existing timestamps
(from the phrase seen first) are concatenated before the incoming ones. -/
theorem dedup_scenario5_merged_times :
    deduplicate_phrases
      [(str "corona maatregelen", [5]), (str "de nieuwe corona maatregelen", [5, 40])] =
      [(str "de nieuwe corona maatregelen", [5, 5, 40])] := by decide

/-- Claim C2, counterexample: `deduplicate_phrases` is not idempotent; on
`exC2` the first pass leaves `cd` next to `ab cd` (the containment scan
stops at the first match), and the second pass merges them. -/
theorem dedup_not_idempotent_counterexample :
    deduplicate_phrases (deduplicate_phrases exC2) ≠ deduplicate_phrases exC2 := by decide

/-- Claim C6, counterexample: for the one-element segment list holding
exactly the injected instruction prompt, `merge_similar_segments`
returns the segment unchanged (lists of length at most one are returned
before artifact filtering), and the timestamp lookup, which scans the
raw segment list, records its start time 7.0 for the keypoint
`transcriptie` contained in the prompt text. -/
theorem prompt_segment_counterexample :
    promptSeg ∈ merge_similar_segments [promptSeg] ⟨2, 5⟩ none ∧
    keypoint_times_lookup [str "transcriptie"] [promptSeg] =
      [(str "transcriptie", [7])] := by decide

/-- Claim C7, counterexample: `is_whisper_artifact` is not
case-insensitive.  On `sC7` (length 103) the final repeated-sequence
check, which runs on the original rather than the lower-cased text,
fires for the lower-cased input but not for the mixed-case input. -/
theorem artifact_case_sensitivity_counterexample :
    is_whisper_artifact (lowerStr sC7) = true ∧ is_whisper_artifact sC7 = false := by decide

/-- Claim C3, counterexample: with just two candidates (at most 20
survivors) `filter_phrases_robust` performs no subphrase removal and
retains `corona maatregelen` although its normalized text is a proper
contiguous substring of the retained `de nieuwe corona maatregelen`. -/
theorem nested_phrase_retained_counterexample :
    filter_phrases_robust
      [(str "corona maatregelen", 1), (str "de nieuwe corona maatregelen", 1)]
      [str "zz"] =
      [str "corona maatregelen", str "de nieuwe corona maatregelen"] ∧
    isSubstr (normalize_phrase (str "corona maatregelen"))
      (normalize_phrase (str "de nieuwe corona maatregelen")) = true ∧
    normalize_phrase (str "corona maatregelen") ≠
      normalize_phrase (str "de nieuwe corona maatregelen") := by decide

/-- Claim C4, counterexample: with more than 20 survivors the merging
post-processing runs, and on `exC4` it builds the retained phrase
`s1 s2 s3 c1 c2 c3 s4 s5 s6` of 9 words with 6 stopwords, exceeding the
ceiling of 5 for phrases of 6 or more words. -/
theorem stopword_ceiling_violated_counterexample :
    str "s1 s2 s3 c1 c2 c3 s4 s5 s6" ∈ filter_phrases_robust exC4 swC4 ∧
    word_count (str "s1 s2 s3 c1 c2 c3 s4 s5 s6") = 9 ∧
    stop_count (splitWs (str "s1 s2 s3 c1 c2 c3 s4 s5 s6")) swC4 = 6 := by decide

/-- Claim C5, counterexample: on `exC5` the stopword filter leaves 21
survivors including the three-word phrase `nieuwe corona maatregelen`,
yet the final list does not contain it — subphrase removal drops it
because it is nested in the retained `de nieuwe corona maatregelen`. -/
theorem threeword_survivor_dropped_counterexample :
    str "nieuwe corona maatregelen" ∈ stopword_survivors exC5 [str "zz"] ∧
    20 < (stopword_survivors exC5 [str "zz"]).length ∧
    word_count (str "nieuwe corona maatregelen") = 3 ∧
    str "nieuwe corona maatregelen" ∉ filter_phrases_robust exC5 [str "zz"] := by decide

/-! ## Case-insensitivity lemmas for the utils artifact filter -/

def upperChars : List Char :=
  ['A', 'B', 'C', 'D', 'E', 'F', 'G', 'H', 'I', 'J', 'K', 'L', 'M',
   'N', 'O', 'P', 'Q', 'R', 'S', 'T', 'U', 'V', 'W', 'X', 'Y', 'Z']

theorem toLowerC_fix {c : Char} (h : c ∉ upperChars) : toLowerC c = c := by
  simp only [upperChars, List.mem_cons, List.not_mem_nil, or_false, not_or] at h
  obtain ⟨h1, h2, h3, h4, h5, h6, h7, h8, h9, h10, h11, h12, h13, h14, h15, h16, h17, h18, h19, h20, h21, h22, h23, h24, h25, h26⟩ := h
  unfold toLowerC
  simp only [if_neg h1, if_neg h2, if_neg h3, if_neg h4, if_neg h5, if_neg h6, if_neg h7, if_neg h8, if_neg h9, if_neg h10, if_neg h11, if_neg h12, if_neg h13, if_neg h14, if_neg h15, if_neg h16, if_neg h17, if_neg h18, if_neg h19, if_neg h20, if_neg h21, if_neg h22, if_neg h23, if_neg h24, if_neg h25, if_neg h26]

theorem toLowerC_toLowerC (c : Char) : toLowerC (toLowerC c) = toLowerC c := by
  by_cases hm : c ∈ upperChars
  · simp only [upperChars, List.mem_cons, List.not_mem_nil, or_false] at hm
    rcases hm with rfl | rfl | rfl | rfl | rfl | rfl | rfl | rfl | rfl | rfl | rfl | rfl | rfl | rfl | rfl | rfl | rfl | rfl | rfl | rfl | rfl | rfl | rfl | rfl | rfl | rfl <;> decide
  · simp [toLowerC_fix hm]

theorem isWs_toLowerC (c : Char) : isWs (toLowerC c) = isWs c := by
  by_cases hm : c ∈ upperChars
  · simp only [upperChars, List.mem_cons, List.not_mem_nil, or_false] at hm
    rcases hm with rfl | rfl | rfl | rfl | rfl | rfl | rfl | rfl | rfl | rfl | rfl | rfl | rfl | rfl | rfl | rfl | rfl | rfl | rfl | rfl | rfl | rfl | rfl | rfl | rfl | rfl <;> decide
  · rw [toLowerC_fix hm]

theorem length_lowerStr (s : Str) : (lowerStr s).length = s.length :=
  List.length_map s toLowerC

theorem isEmpty_lowerStr (s : Str) : (lowerStr s).isEmpty = s.isEmpty := by
  cases s <;> rfl

theorem lowerStr_lowerStr (s : Str) : lowerStr (lowerStr s) = lowerStr s := by
  simp only [lowerStr, List.map_map]
  exact List.map_congr_left (fun c _ => toLowerC_toLowerC c)

theorem dropWhile_lowerStr (s : Str) :
    (lowerStr s).dropWhile isWs = lowerStr (s.dropWhile isWs) := by
  induction s with
  | nil => rfl
  | cons c t ih =>
    simp only [lowerStr, List.map_cons, List.dropWhile_cons, isWs_toLowerC]
    by_cases h : isWs c = true
    · simp only [h, if_true]
      exact ih
    · simp only [h, if_false]
      rfl

theorem reverse_lowerStr (s : Str) :
    (lowerStr s).reverse = lowerStr s.reverse := by
  simp [lowerStr, List.map_reverse]

theorem stripStr_lowerStr (s : Str) :
    stripStr (lowerStr s) = lowerStr (stripStr s) := by
  unfold stripStr
  rw [dropWhile_lowerStr, reverse_lowerStr, dropWhile_lowerStr, reverse_lowerStr]

/-- Claim C7, amended: `utils.is_whisper_artifact` is fully
case-insensitive — every check runs on the lower-cased stripped text and
the length guard is invariant under lower-casing — whereas
`phrase_filtering.is_whisper_artifact` is case-insensitive in every
check except the final repeated-20-character-sequence check on texts
longer than 100 characters, which runs on the original text
(`artifact_case_sensitivity_counterexample`). -/
theorem utils_artifact_case_insensitive (t : Str) :
    Utils.is_whisper_artifact (lowerStr t) = Utils.is_whisper_artifact t := by
  unfold Utils.is_whisper_artifact
  rw [isEmpty_lowerStr, lowerStr_lowerStr, stripStr_lowerStr, length_lowerStr]

/-! ## Substring transport lemmas

`merge_text_segments` builds a merged text by joining stripped
non-artifact parts with single spaces, collapsing double spaces, and
stripping the result.  None of these steps can create a new occurrence
of a space-free word such as `transcriptie`: every occurrence traces
back into one of the parts.  These lemmas move a space-free substring
of the final text back through strip, replace and join. -/

theorem prefixOf_nil_eq {w : Str} (h : List.isPrefixOf w [] = true) : w = [] := by
  cases w with
  | nil => rfl
  | cons d w2 => simp [List.isPrefixOf] at h

theorem substr_nil_left (t : Str) : isSubstr [] t = true := by
  cases t with
  | nil => rfl
  | cons c t2 => simp [isSubstr, List.isPrefixOf]

theorem prefixOf_extend {w x : Str} (t : Str) (h : List.isPrefixOf w x = true) :
    List.isPrefixOf w (x ++ t) = true := by
  induction w generalizing x with
  | nil => simp [List.isPrefixOf]
  | cons d w2 ih =>
    cases x with
    | nil => simp [List.isPrefixOf] at h
    | cons a x2 =>
      simp only [List.cons_append, List.isPrefixOf, Bool.and_eq_true, beq_iff_eq] at h ⊢
      exact ⟨h.1, ih h.2⟩

theorem prefixOf_split {c : Char} :
    ∀ (x : Str) {w : Str} (y : Str), c ∉ w →
      List.isPrefixOf w (x ++ c :: y) = true → List.isPrefixOf w x = true := by
  intro x
  induction x with
  | nil =>
    intro w y hc h
    cases w with
    | nil => simp [List.isPrefixOf]
    | cons d w2 =>
      rw [List.nil_append] at h
      simp only [List.isPrefixOf, Bool.and_eq_true, beq_iff_eq] at h
      exact absurd (show c ∈ d :: w2 by rw [← h.1]; exact List.mem_cons_self d w2) hc
  | cons a x2 ih =>
    intro w y hc h
    cases w with
    | nil => simp [List.isPrefixOf]
    | cons d w2 =>
      simp only [List.cons_append, List.isPrefixOf, Bool.and_eq_true, beq_iff_eq] at h ⊢
      exact ⟨h.1, ih y (fun hm => hc (List.mem_cons_of_mem d hm)) h.2⟩

theorem substr_of_tail {w t : Str} (c : Char) (h : isSubstr w t = true) :
    isSubstr w (c :: t) = true := by
  simp only [isSubstr, Bool.or_eq_true]
  exact Or.inr h

theorem substr_split {w : Str} {c : Char} (hc : c ∉ w) :
    ∀ (x y : Str), isSubstr w (x ++ c :: y) = true →
      isSubstr w x = true ∨ isSubstr w y = true := by
  intro x
  induction x with
  | nil =>
    intro y h
    rw [List.nil_append] at h
    simp only [isSubstr, Bool.or_eq_true] at h
    rcases h with h | h
    · cases w with
      | nil => exact Or.inl (substr_nil_left [])
      | cons d w2 =>
        simp only [List.isPrefixOf, Bool.and_eq_true, beq_iff_eq] at h
        exact absurd (show c ∈ d :: w2 by rw [← h.1]; exact List.mem_cons_self d w2) hc
    · exact Or.inr h
  | cons a x2 ih =>
    intro y h
    rw [List.cons_append] at h
    simp only [isSubstr, Bool.or_eq_true] at h
    rcases h with h | h
    · refine Or.inl ?_
      have hp : List.isPrefixOf w (a :: x2) = true :=
        prefixOf_split (a :: x2) y hc (by rw [List.cons_append]; exact h)
      simp only [isSubstr, Bool.or_eq_true]
      exact Or.inl hp
    · rcases ih y h with h2 | h2
      · exact Or.inl (substr_of_tail a h2)
      · exact Or.inr h2

theorem substr_of_drop {w : Str} :
    ∀ (t : Str) (k : ℕ), isSubstr w (t.drop k) = true → isSubstr w t = true := by
  intro t
  induction t with
  | nil => intro k h; simpa using h
  | cons c t2 ih =>
    intro k h
    cases k with
    | zero => simpa using h
    | succ k2 =>
      rw [List.drop_succ_cons] at h
      exact substr_of_tail c (ih k2 h)

theorem substr_extend {w x : Str} (t : Str) (h : isSubstr w x = true) :
    isSubstr w (x ++ t) = true := by
  induction x with
  | nil =>
    have hw : w = [] := prefixOf_nil_eq (by simpa [isSubstr] using h)
    subst hw
    simpa using substr_nil_left t
  | cons a x2 ih =>
    rw [List.cons_append]
    simp only [isSubstr, Bool.or_eq_true] at h ⊢
    rcases h with h | h
    · refine Or.inl ?_
      rw [← List.cons_append]
      exact prefixOf_extend t h
    · exact Or.inr (ih h)

theorem prefixOf_map (f : Char → Char) :
    ∀ {w t : Str}, List.isPrefixOf w t = true →
      List.isPrefixOf (w.map f) (t.map f) = true := by
  intro w
  induction w with
  | nil => intro t h; simp [List.isPrefixOf]
  | cons d w2 ih =>
    intro t h
    cases t with
    | nil => simp [List.isPrefixOf] at h
    | cons a t2 =>
      simp only [List.map_cons, List.isPrefixOf, Bool.and_eq_true, beq_iff_eq] at h ⊢
      exact ⟨congrArg f h.1, ih h.2⟩

theorem substr_map (f : Char → Char) :
    ∀ {w t : Str}, isSubstr w t = true → isSubstr (w.map f) (t.map f) = true := by
  intro w t
  induction t with
  | nil =>
    intro h
    have hw : w = [] := prefixOf_nil_eq (by simpa [isSubstr] using h)
    subst hw
    simp [isSubstr, List.isPrefixOf]
  | cons a t2 ih =>
    intro h
    simp only [isSubstr, Bool.or_eq_true, List.map_cons] at h ⊢
    rcases h with h | h
    · refine Or.inl ?_
      have hp := prefixOf_map f h
      simpa using hp
    · exact Or.inr (ih h)

theorem joinSpace_nil_eq : joinSpace [] = [] := rfl

theorem joinSpace_singleton (p : Str) : joinSpace [p] = p := by
  simp [joinSpace, List.intercalate]

theorem joinSpace_cons_cons (p q : Str) (rest : List Str) :
    joinSpace (p :: q :: rest) = p ++ ' ' :: joinSpace (q :: rest) := by
  simp [joinSpace, List.intercalate, List.intersperse]

theorem substr_join {w : Str} (hc : ' ' ∉ w) (hne : w ≠ []) :
    ∀ (parts : List Str), isSubstr w (joinSpace parts) = true →
      ∃ p ∈ parts, isSubstr w p = true := by
  intro parts
  induction parts with
  | nil =>
    intro h
    rw [joinSpace_nil_eq] at h
    exact absurd (prefixOf_nil_eq (by simpa [isSubstr] using h)) hne
  | cons p rest ih =>
    intro h
    cases rest with
    | nil =>
      rw [joinSpace_singleton] at h
      exact ⟨p, List.mem_cons_self p [], h⟩
    | cons q rest2 =>
      rw [joinSpace_cons_cons] at h
      rcases substr_split hc p (joinSpace (q :: rest2)) h with h2 | h2
      · exact ⟨p, List.mem_cons_self p _, h2⟩
      · obtain ⟨p2, hp2, hs⟩ := ih h2
        exact ⟨p2, List.mem_cons_of_mem p hp2, hs⟩

theorem replaceGo_prefixOf :
    ∀ (fuel : ℕ) (w s : Str), ' ' ∉ w →
      List.isPrefixOf w (replaceAllGo [' ', ' '] [' '] fuel s) = true →
      List.isPrefixOf w s = true := by
  intro fuel
  induction fuel with
  | zero =>
    intro w s _ h
    rw [show replaceAllGo [' ', ' '] [' '] 0 s = s from by simp [replaceAllGo]] at h
    exact h
  | succ fuel ih =>
    intro w s hc h
    cases s with
    | nil => exact h
    | cons a t =>
      by_cases hm : List.isPrefixOf [' ', ' '] (a :: t) = true
      · rw [show replaceAllGo [' ', ' '] [' '] (fuel + 1) (a :: t) =
            ' ' :: replaceAllGo [' ', ' '] [' '] fuel
              (t.drop ([' ', ' '].length - 1)) from by
          simp only [replaceAllGo, if_pos hm, List.singleton_append]] at h
        cases w with
        | nil => simp [List.isPrefixOf]
        | cons d w2 =>
          simp only [List.isPrefixOf, Bool.and_eq_true, beq_iff_eq] at h
          exact absurd (show ' ' ∈ d :: w2 by
            rw [← h.1]; exact List.mem_cons_self d w2) hc
      · rw [show replaceAllGo [' ', ' '] [' '] (fuel + 1) (a :: t) =
            a :: replaceAllGo [' ', ' '] [' '] fuel t from by
          simp only [replaceAllGo, if_neg hm]] at h
        cases w with
        | nil => simp [List.isPrefixOf]
        | cons d w2 =>
          simp only [List.isPrefixOf, Bool.and_eq_true, beq_iff_eq] at h ⊢
          exact ⟨h.1, ih w2 t (fun hm2 => hc (List.mem_cons_of_mem d hm2)) h.2⟩

theorem replaceGo_substr :
    ∀ (fuel : ℕ) (w s : Str), ' ' ∉ w → w ≠ [] →
      isSubstr w (replaceAllGo [' ', ' '] [' '] fuel s) = true →
      isSubstr w s = true := by
  intro fuel
  induction fuel with
  | zero =>
    intro w s _ _ h
    rw [show replaceAllGo [' ', ' '] [' '] 0 s = s from by simp [replaceAllGo]] at h
    exact h
  | succ fuel ih =>
    intro w s hc hne h
    cases s with
    | nil => exact h
    | cons a t =>
      by_cases hm : List.isPrefixOf [' ', ' '] (a :: t) = true
      · rw [show replaceAllGo [' ', ' '] [' '] (fuel + 1) (a :: t) =
            ' ' :: replaceAllGo [' ', ' '] [' '] fuel
              (t.drop ([' ', ' '].length - 1)) from by
          simp only [replaceAllGo, if_pos hm, List.singleton_append]] at h
        simp only [isSubstr, Bool.or_eq_true] at h
        rcases h with h | h
        · cases w with
          | nil => exact absurd rfl hne
          | cons d w2 =>
            simp only [List.isPrefixOf, Bool.and_eq_true, beq_iff_eq] at h
            exact absurd (show ' ' ∈ d :: w2 by
              rw [← h.1]; exact List.mem_cons_self d w2) hc
        · exact substr_of_tail a (substr_of_drop t _ (ih w _ hc hne h))
      · rw [show replaceAllGo [' ', ' '] [' '] (fuel + 1) (a :: t) =
            a :: replaceAllGo [' ', ' '] [' '] fuel t from by
          simp only [replaceAllGo, if_neg hm]] at h
        simp only [isSubstr, Bool.or_eq_true] at h ⊢
        rcases h with h | h
        · refine Or.inl ?_
          cases w with
          | nil => simp [List.isPrefixOf]
          | cons d w2 =>
            simp only [List.isPrefixOf, Bool.and_eq_true, beq_iff_eq] at h ⊢
            exact ⟨h.1, replaceGo_prefixOf fuel w2 t
              (fun hm2 => hc (List.mem_cons_of_mem d hm2)) h.2⟩
        · exact Or.inr (ih w t hc hne h)

theorem replace_substr {w s : Str} (hc : ' ' ∉ w) (hne : w ≠ [])
    (h : isSubstr w (replaceAll [' ', ' '] [' '] s) = true) :
    isSubstr w s = true := by
  rw [replaceAll, if_neg (by simp)] at h
  exact replaceGo_substr s.length w s hc hne h

theorem substr_of_dropWhile {w : Str} (p : Char → Bool) :
    ∀ (t : Str), isSubstr w (t.dropWhile p) = true → isSubstr w t = true := by
  intro t
  induction t with
  | nil => intro h; exact h
  | cons c t2 ih =>
    intro h
    by_cases hp : p c = true
    · rw [List.dropWhile_cons_of_pos hp] at h
      exact substr_of_tail c (ih h)
    · rwa [List.dropWhile_cons_of_neg hp] at h

theorem substr_of_strip {w s : Str} (h : isSubstr w (stripStr s) = true) :
    isSubstr w s = true := by
  unfold stripStr at h
  have h2 : isSubstr w (s.dropWhile isWs) = true := by
    have hd : s.dropWhile isWs =
        ((s.dropWhile isWs).reverse.dropWhile isWs).reverse ++
          ((s.dropWhile isWs).reverse.takeWhile isWs).reverse := by
      rw [← List.reverse_append, List.takeWhile_append_dropWhile, List.reverse_reverse]
    rw [hd]
    exact substr_extend _ h
  exact substr_of_dropWhile isWs s h2

theorem pick_longest_mem {u : List Str} :
    ∀ (l : List Str) (acc : Str), acc ∈ u → (∀ x ∈ l, x ∈ u) →
      (l.foldl (fun acc t => if acc.length < t.length then t else acc) acc) ∈ u := by
  intro l
  induction l with
  | nil => intro acc ha _; simpa using ha
  | cons t l2 ih =>
    intro acc ha hl
    rw [List.foldl_cons]
    refine ih _ ?_ (fun x hx => hl x (List.mem_cons_of_mem t hx))
    by_cases hlt : acc.length < t.length
    · simpa [hlt] using hl t (List.mem_cons_self t l2)
    · simpa [hlt] using ha

/-! ## No merged segment text can equal the injected prompt

Every text that survives the artifact filter of `merge_similar_segments`
satisfies `is_whisper_artifact = false`, and the prompt itself (as well
as every stripped text containing the space-free indicator
`transcriptie`) is an artifact; since a merged text is built by joining
such parts with spaces, no output text of `group_segments` over filtered
segments can equal `WHISPER_PROMPT`. -/

theorem artifact_prompt_true : is_whisper_artifact WHISPER_PROMPT = true := by decide

theorem artifact_false_ne_prompt {t : Str} (h : is_whisper_artifact t = false) :
    t ≠ WHISPER_PROMPT := by
  intro he
  rw [he, artifact_prompt_true] at h
  exact Bool.noConfusion h

theorem artifact_of_transcriptie {t : Str}
    (hsub : isSubstr (str "transcriptie") (stripStr t) = true) :
    is_whisper_artifact t = true := by
  have ht : ¬(t.isEmpty = true) := by
    intro he
    rw [List.isEmpty_iff] at he
    subst he
    exact absurd hsub (by decide)
  have hlow : isSubstr (str "transcriptie") (stripStr (lowerStr t)) = true := by
    rw [stripStr_lowerStr]
    have h2 := substr_map toLowerC hsub
    rw [show (str "transcriptie").map toLowerC = str "transcriptie" from by decide] at h2
    exact h2
  have hany : whisper_prompt_indicators.any
      (fun ind => isSubstr ind (stripStr (lowerStr t))) = true :=
    List.any_eq_true.2 ⟨str "transcriptie", by decide, hlow⟩
  simp only [is_whisper_artifact]
  rw [if_neg ht, if_pos hany]

theorem strip_substr_transcriptie_artifact {t : Str}
    (h : is_whisper_artifact t = false) :
    isSubstr (str "transcriptie") (stripStr t) = true → False := by
  intro hsub
  rw [artifact_of_transcriptie hsub] at h
  exact Bool.noConfusion h

theorem strip_replace_join_ne_prompt {ps : List Str}
    (hps : ∀ p ∈ ps, isSubstr (str "transcriptie") p = true → False) :
    stripStr (replaceAll [' ', ' '] [' '] (joinSpace ps)) ≠ WHISPER_PROMPT := by
  intro he
  have h1 : isSubstr (str "transcriptie")
      (stripStr (replaceAll [' ', ' '] [' '] (joinSpace ps))) = true := by
    rw [he]; decide
  have h2 := substr_of_strip h1
  have h3 := replace_substr (by decide) (by decide) h2
  obtain ⟨p, hp, hsub⟩ := substr_join (by decide) (by decide) ps h3
  exact hps p hp hsub

theorem merge_text_ne_prompt :
    ∀ (texts : List Str), (∀ t ∈ texts, is_whisper_artifact t = false) →
      merge_text_segments texts ≠ WHISPER_PROMPT := by
  intro texts h
  have huniq : ∀ u ∈ (texts.map stripStr).filter (fun t => !t.isEmpty),
      isSubstr (str "transcriptie") u = true → False := by
    intro u hu hsub
    obtain ⟨t, ht, rfl⟩ := List.mem_map.1 (List.mem_of_mem_filter hu)
    exact strip_substr_transcriptie_artifact (h t ht) hsub
  have huniq2 : ∀ u ∈ (texts.map stripStr).filter (fun t => !t.isEmpty),
      u ≠ WHISPER_PROMPT := by
    intro u hu he
    exact huniq u hu (by rw [he]; decide)
  cases texts with
  | nil => simp only [merge_text_segments]; decide
  | cons t1 rest =>
    cases rest with
    | nil =>
      simp only [merge_text_segments]
      exact artifact_false_ne_prompt (h t1 (List.mem_cons_self t1 []))
    | cons t2 ts =>
      simp only [merge_text_segments]
      split
      · decide
      · rename_i u heq
        exact huniq2 u (by rw [heq]; exact List.mem_cons_self u [])
      · rename_i u hne0 hne1
        set U := List.filter (fun t => !List.isEmpty t)
          (List.map stripStr (t1 :: t2 :: ts)) with hU
        have hhead : U.headD [] ∈ U := by
          cases hc : U with
          | nil => exact absurd hc hne0
          | cons a U2 => simp
        have hbase : U.foldl
            (fun acc t => if acc.length < t.length then t else acc) (U.headD []) ∈ U :=
          pick_longest_mem U (U.headD []) hhead (fun x hx => hx)
        split
        · rename_i p heq2
          injection heq2 with hp htail
          subst hp
          exact huniq2 _ hbase
        · rename_i ps hne2
          refine strip_replace_join_ne_prompt ?_
          intro p hp hsub
          rcases List.mem_cons.1 hp with rfl | hp2
          · exact huniq _ hbase hsub
          · exact huniq p (List.mem_of_mem_filter hp2) hsub

theorem group_segments_no_prompt (threshold : PRat) :
    ∀ (fuel : ℕ) (l : List Segment),
      (∀ s ∈ l, is_whisper_artifact s.text = false) →
      ∀ out ∈ group_segments threshold fuel l, out.text ≠ WHISPER_PROMPT := by
  intro fuel
  induction fuel with
  | zero =>
    intro l hval out hout
    rw [show group_segments threshold 0 l = l from by
      simp [group_segments]] at hout
    exact artifact_false_ne_prompt (hval out hout)
  | succ fuel ih =>
    intro l hval out hout
    cases l with
    | nil => simp [group_segments] at hout
    | cons s1 rest =>
      simp only [group_segments] at hout
      rcases List.mem_cons.1 hout with hout1 | hout2
      · subst hout1
        split
        · exact artifact_false_ne_prompt (hval s1 (List.mem_cons_self s1 rest))
        · refine merge_text_ne_prompt _ ?_
          intro t ht
          rcases List.mem_cons.1 ht with rfl | ht2
          · exact hval s1 (List.mem_cons_self s1 rest)
          · obtain ⟨s, hs, rfl⟩ := List.mem_map.1 ht2
            exact hval s (List.mem_cons_of_mem s1 (List.mem_of_mem_filter hs))
      · exact ih _
          (fun s hs => hval s (List.mem_cons_of_mem s1 (List.mem_of_mem_filter hs)))
          out hout2

theorem dedupKeepFirstGo_subset :
    ∀ (fuel : ℕ) (l : List Str) (x : Str), x ∈ dedupKeepFirstGo fuel l → x ∈ l := by
  intro fuel
  induction fuel with
  | zero =>
    intro l x h
    rw [show dedupKeepFirstGo 0 l = l from by simp [dedupKeepFirstGo]] at h
    exact h
  | succ fuel ih =>
    intro l x h
    cases l with
    | nil => simp [dedupKeepFirstGo] at h
    | cons a t =>
      simp only [dedupKeepFirstGo] at h
      rcases List.mem_cons.1 h with rfl | h2
      · exact List.mem_cons_self _ _
      · exact List.mem_cons_of_mem a (List.mem_of_mem_filter (ih _ x h2))

theorem dedupKeepFirst_subset {l : List Str} {x : Str}
    (h : x ∈ dedupKeepFirst l) : x ∈ l :=
  dedupKeepFirstGo_subset l.length l x h

/-- Claim C6, amended: for every segment list with at least two segments
and every similarity threshold, no segment `merge_similar_segments`
returns has the injected instruction prompt `WHISPER_PROMPT` as its
text, so a prompt segment is excluded (the counterexample shows a
single-segment list is returned unchanged, prompt included); however the
keypoint timestamp lookup of `transcribe_and_extract` scans the raw
`all_segments` list, not the merged artifact-filtered list, so whenever
the raw list contains a prompt segment, its start time is recorded for
every looked-up keypoint whose lower-cased text the lower-cased prompt
contains. -/
theorem prompt_segment_amended (segs : List Segment) (threshold : PRat)
    (h2 : 2 ≤ segs.length) :
    (∀ out ∈ merge_similar_segments segs threshold none, out.text ≠ WHISPER_PROMPT) ∧
    (∀ (kps : List Str) (kp : Str) (t0 t1 : ℚ),
        Segment.mk t0 t1 WHISPER_PROMPT ∈ segs →
        kp ∈ dedupKeepFirst kps →
        isSubstr (lowerStr kp) (lowerStr WHISPER_PROMPT) = true →
        ∃ times, (kp, times) ∈ keypoint_times_lookup kps segs ∧ t0 ∈ times) := by
  constructor
  · intro out hout
    have hrw : merge_similar_segments segs threshold none =
        group_segments threshold segs.length
          (segs.filter (fun s => !(stripStr s.text).isEmpty &&
            !is_whisper_artifact s.text)) := by
      rw [merge_similar_segments, if_neg (by omega)]
    rw [hrw] at hout
    refine group_segments_no_prompt threshold segs.length _ ?_ out hout
    intro s hs
    have hcond := (List.mem_filter.1 hs).2
    simp only [Bool.and_eq_true, Bool.not_eq_true'] at hcond
    exact hcond.2
  · intro kps kp t0 t1 hseg hkp hsub
    refine ⟨_, List.mem_map.2 ⟨kp, hkp, rfl⟩, ?_⟩
    rw [List.mem_flatten]
    refine ⟨List.replicate (kps.count kp) t0,
      List.mem_map.2 ⟨Segment.mk t0 t1 WHISPER_PROMPT, hseg, ?_⟩, ?_⟩
    · show (if isSubstr (lowerStr kp) (lowerStr WHISPER_PROMPT) then
        List.replicate (kps.count kp) t0 else []) = List.replicate (kps.count kp) t0
      rw [if_pos hsub]
    · have hmem : kp ∈ kps := dedupKeepFirst_subset hkp
      have hpos : 0 < kps.count kp := List.count_pos_iff.2 hmem
      exact List.mem_replicate.2 ⟨by omega, rfl⟩

/-- Claim C6 witness: the amended claim applied to the concrete
two-segment list `[promptSeg, normalSeg]` with threshold 0.4 and the
keypoint `transcriptie`: the surviving normal segment is in the merged
output and differs from the prompt, and the lookup over the raw list
still records the prompt segment's start time 7.0. -/
theorem prompt_segment_amended_witness :
    2 ≤ ([promptSeg, normalSeg] : List Segment).length ∧
    normalSeg ∈ merge_similar_segments [promptSeg, normalSeg] ⟨2, 5⟩ none ∧
    normalSeg.text ≠ WHISPER_PROMPT ∧
    ∃ times, (str "transcriptie", times) ∈
        keypoint_times_lookup [str "transcriptie"] [promptSeg, normalSeg] ∧
      (7 : ℚ) ∈ times := by
  refine ⟨by decide, by decide, ?_, ?_⟩
  · exact (prompt_segment_amended [promptSeg, normalSeg] ⟨2, 5⟩ (by decide)).1
      normalSeg (by decide)
  · exact (prompt_segment_amended [promptSeg, normalSeg] ⟨2, 5⟩ (by decide)).2
      [str "transcriptie"] (str "transcriptie") 7 9 (by decide) (by decide) (by decide)

/-! ## The Deduplicator's dict invariant -/

def dict_keys (d : DedupDict) : List Str := d.map (·.1)

theorem mem_dict_set {e : Str × DedupEntry} {k v d} (h : e ∈ dict_set k v d) :
    e = (k, v) ∨ e ∈ d := by
  unfold dict_set at h
  split at h
  · obtain ⟨a, ha, rfl⟩ := List.mem_map.1 h
    by_cases hk : a.1 = k
    · left; simp [hk]
    · right; simpa [hk] using ha
  · rcases List.mem_append.1 h with h | h
    · right; exact h
    · left; simpa using h

theorem any_key_iff {k : Str} {d : DedupDict} :
    (d.any (fun e => decide (e.1 = k))) = true ↔ k ∈ dict_keys d := by
  unfold dict_keys
  rw [List.any_eq_true]
  constructor
  · rintro ⟨e, he, hk⟩
    exact List.mem_map.2 ⟨e, he, (of_decide_eq_true hk)⟩
  · intro hk
    obtain ⟨e, he, hek⟩ := List.mem_map.1 hk
    exact ⟨e, he, decide_eq_true hek⟩

theorem keys_dict_set_of_mem {k v d} (h : k ∈ dict_keys d) :
    dict_keys (dict_set k v d) = dict_keys d := by
  unfold dict_set
  rw [if_pos (any_key_iff.2 h)]
  unfold dict_keys
  rw [List.map_map]
  refine List.map_congr_left (fun a _ => ?_)
  by_cases hk : a.1 = k <;> simp [hk]

theorem keys_dict_set_of_not_mem {k v d} (h : k ∉ dict_keys d) :
    dict_keys (dict_set k v d) = dict_keys d ++ [k] := by
  unfold dict_set
  rw [if_neg (fun hc => h (any_key_iff.1 hc))]
  simp [dict_keys]

theorem keys_dict_del_sublist (k : Str) (d : DedupDict) :
    (dict_keys (dict_del k d)).Sublist (dict_keys d) := by
  unfold dict_keys dict_del
  exact List.Sublist.map _ (List.filter_sublist d)

theorem dict_find_eq_none {k : Str} {d : DedupDict} (h : dict_find k d = none) :
    k ∉ dict_keys d := by
  unfold dict_find at h
  rw [Option.map_eq_none'] at h
  rw [List.find?_eq_none] at h
  intro hk
  obtain ⟨e, he, hek⟩ := List.mem_map.1 hk
  exact absurd (by simpa using hek) (by simpa using h e he)

/-- The invariant of `phrase_dict`: keys are pairwise distinct, and every
stored phrase normalises to its key. -/
def DictInv (d : DedupDict) : Prop :=
  (dict_keys d).Nodup ∧ ∀ e ∈ d, normalize_phrase e.2.1 = e.1

theorem dictInv_set_mem {d k v} (h : DictInv d) (hk : k ∈ dict_keys d)
    (hv : normalize_phrase v.1 = k) : DictInv (dict_set k v d) := by
  refine ⟨by rw [keys_dict_set_of_mem hk]; exact h.1, fun e he => ?_⟩
  rcases mem_dict_set he with rfl | he
  · exact hv
  · exact h.2 e he

theorem dictInv_set_not_mem {d k v} (h : DictInv d) (hk : k ∉ dict_keys d)
    (hv : normalize_phrase v.1 = k) : DictInv (dict_set k v d) := by
  refine ⟨?_, fun e he => ?_⟩
  · rw [keys_dict_set_of_not_mem hk]
    simp only [List.nodup_append, List.nodup_cons, List.not_mem_nil,
      not_false_iff, List.nodup_nil, and_true, true_and]
    exact ⟨h.1, by simpa [List.disjoint_singleton] using hk⟩
  · rcases mem_dict_set he with rfl | he
    · exact hv
    · exact h.2 e he

theorem dictInv_del {d} (k : Str) (h : DictInv d) : DictInv (dict_del k d) :=
  ⟨h.1.sublist (keys_dict_del_sublist k d),
   fun e he => h.2 e (List.mem_of_mem_filter he)⟩

theorem dictInv_step {d} (h : DictInv d) (x : DedupEntry) :
    DictInv (dedup_step d x) := by
  cases hf : dict_find (normalize_phrase x.1) d with
  | some v =>
    obtain ⟨ep, ets⟩ := v
    have hx : ∃ e ∈ d, e.1 = normalize_phrase x.1 ∧ e.2 = (ep, ets) := by
      unfold dict_find at hf
      rw [Option.map_eq_some'] at hf
      obtain ⟨e, he, hev⟩ := hf
      have hp := List.find?_some he
      exact ⟨e, List.mem_of_find?_eq_some he, by simpa using hp, hev⟩
    obtain ⟨e, hmem, hek, hev⟩ := hx
    have hk : normalize_phrase x.1 ∈ dict_keys d :=
      List.mem_map.2 ⟨e, hmem, hek⟩
    have hep : normalize_phrase ep = normalize_phrase x.1 := by
      have := h.2 e hmem
      rw [hek] at this
      rw [show ep = (e.2).1 from by rw [hev]]
      exact this
    simp only [dedup_step, hf]
    split
    · exact dictInv_set_mem h hk rfl
    · exact dictInv_set_mem h hk hep
  | none =>
    have hnk : normalize_phrase x.1 ∉ dict_keys d := dict_find_eq_none hf
    cases hc : d.find? (fun e => isSubstr (normalize_phrase x.1) e.1 ||
        isSubstr e.1 (normalize_phrase x.1)) with
    | some e0 =>
      obtain ⟨k, ep, ets⟩ := e0
      have hmem : (k, ep, ets) ∈ d := List.mem_of_find?_eq_some hc
      have hkk : k ∈ dict_keys d := List.mem_map.2 ⟨_, hmem, rfl⟩
      have hepk : normalize_phrase ep = k := h.2 _ hmem
      simp only [dedup_step, hf, hc]
      split
      · refine dictInv_set_not_mem (dictInv_del k h) ?_ rfl
        intro hmem2
        exact hnk ((keys_dict_del_sublist k d).mem hmem2)
      · exact dictInv_set_mem h hkk hepk
    | none =>
      simp only [dedup_step, hf, hc]
      exact dictInv_set_not_mem h hnk rfl

theorem dictInv_foldl (xs : List DedupEntry) {d} (h : DictInv d) :
    DictInv (xs.foldl dedup_step d) := by
  induction xs generalizing d with
  | nil => exact h
  | cons x t ih => exact ih (dictInv_step h x)

/-- Claim C2, amended: one pass of `deduplicate_phrases` leaves no two
entries with the same normalised text (so a second pass finds no further
exact-duplicate merges), but — as `dedup_not_idempotent_counterexample`
shows — a substring-containment merge can survive one pass, so
`deduplicate_phrases` is not idempotent in general. -/
theorem dedup_output_normalized_nodup (xs : List DedupEntry) :
    ((deduplicate_phrases xs).map (fun e => normalize_phrase e.1)).Nodup := by
  unfold deduplicate_phrases
  split
  · rename_i hx
    rw [List.isEmpty_iff] at hx
    subst hx
    simp
  · have hperm : (sortDescBy (fun e => e.1.length)
        ((xs.foldl dedup_step []).map (·.2))).Perm
        ((xs.foldl dedup_step []).map (·.2)) :=
      List.perm_insertionSort _ _
    rw [(hperm.map (fun e => normalize_phrase e.1)).nodup_iff]
    have hinv : DictInv (xs.foldl dedup_step []) :=
      dictInv_foldl xs ⟨List.nodup_nil, by simp⟩
    rw [List.map_map]
    have : ((xs.foldl dedup_step []).map
        (fun e => normalize_phrase (e.2).1)) = dict_keys (xs.foldl dedup_step []) :=
      List.map_congr_left (fun e he => hinv.2 e he)
    rw [show ((fun e => normalize_phrase e.1) ∘ (·.2)) =
        (fun (e : Str × DedupEntry) => normalize_phrase (e.2).1) from rfl, this]
    exact hinv.1

/-! ## Word-splitting transfer lemmas -/

theorem splitWsGo_lower (s : Str) : ∀ cur : Str,
    splitWsGo (lowerStr s) (lowerStr cur) = (splitWsGo s cur).map lowerStr := by
  induction s with
  | nil =>
    intro cur
    show splitWsGo [] (lowerStr cur) = (splitWsGo [] cur).map lowerStr
    simp only [splitWsGo]
    rw [isEmpty_lowerStr]
    by_cases hc : cur.isEmpty <;> simp [hc, reverse_lowerStr]
  | cons c t ih =>
    intro cur
    show splitWsGo (toLowerC c :: lowerStr t) (lowerStr cur) =
      (splitWsGo (c :: t) cur).map lowerStr
    simp only [splitWsGo]
    rw [isWs_toLowerC, isEmpty_lowerStr]
    have h0 := ih []
    rw [show lowerStr [] = [] from rfl] at h0
    by_cases hw : isWs c = true
    · by_cases hcur : cur.isEmpty = true
      · simp only [hw, hcur, if_true]
        exact h0
      · simp only [hw, hcur, if_true, if_false]
        rw [reverse_lowerStr, h0]
        rfl
    · simp only [hw, if_false]
      exact ih (c :: cur)

theorem splitWs_lowerStr (s : Str) :
    splitWs (lowerStr s) = (splitWs s).map lowerStr := by
  simpa [lowerStr] using splitWsGo_lower s []

theorem splitWsGo_all_ws {t : Str} (hw : ∀ c ∈ t, isWs c = true) (cur : Str) :
    splitWsGo t cur = if cur.isEmpty then [] else [cur.reverse] := by
  induction t generalizing cur with
  | nil => rfl
  | cons c t' ih =>
    have hc : isWs c = true := hw c (List.mem_cons_self c t')
    have hw' : ∀ c ∈ t', isWs c = true := fun d hd => hw d (List.mem_cons_of_mem c hd)
    simp only [splitWsGo, hc, if_true]
    by_cases hcur : cur.isEmpty
    · simp [hcur, ih hw']
    · simp [hcur, ih hw']

theorem splitWsGo_append_ws {t : Str} (hw : ∀ c ∈ t, isWs c = true) :
    ∀ (s cur : Str), splitWsGo (s ++ t) cur = splitWsGo s cur := by
  intro s
  induction s with
  | nil =>
    intro cur
    rw [List.nil_append, splitWsGo_all_ws hw cur]
    rfl
  | cons c s' ih =>
    intro cur
    simp only [List.cons_append, splitWsGo]
    by_cases hc : isWs c = true
    · by_cases hcur : cur.isEmpty <;> simp [hc, hcur, ih]
    · simp [hc, ih]

theorem splitWsGo_dropWhile (s : Str) :
    splitWsGo (s.dropWhile isWs) [] = splitWsGo s [] := by
  induction s with
  | nil => rfl
  | cons c t ih =>
    by_cases hc : isWs c = true
    · rw [List.dropWhile_cons_of_pos hc]
      rw [ih]
      simp [splitWsGo, hc]
    · rw [List.dropWhile_cons_of_neg (by simpa using hc)]

theorem splitWs_stripStr (s : Str) : splitWs (stripStr s) = splitWs s := by
  unfold splitWs stripStr
  have hdecomp : s.dropWhile isWs =
      ((s.dropWhile isWs).reverse.dropWhile isWs).reverse ++
        ((s.dropWhile isWs).reverse.takeWhile isWs).reverse := by
    rw [← List.reverse_append, List.takeWhile_append_dropWhile, List.reverse_reverse]
  have hw : ∀ c ∈ ((s.dropWhile isWs).reverse.takeWhile isWs).reverse, isWs c = true :=
    fun c hc => List.mem_takeWhile_imp (List.mem_reverse.1 hc)
  calc splitWsGo ((s.dropWhile isWs).reverse.dropWhile isWs).reverse [] =
      splitWsGo (((s.dropWhile isWs).reverse.dropWhile isWs).reverse ++
        ((s.dropWhile isWs).reverse.takeWhile isWs).reverse) [] :=
        (splitWsGo_append_ws hw _ []).symm
    _ = splitWsGo (s.dropWhile isWs) [] := by rw [← hdecomp]
    _ = splitWsGo s [] := splitWsGo_dropWhile s

theorem word_count_strip_lower (p : Str) :
    (splitWs (stripStr (lowerStr p))).length = word_count p := by
  rw [splitWs_stripStr, splitWs_lowerStr, List.length_map]
  rfl

/-! ## The subphrase-removal invariant -/

/-- No retained phrase is a word-boundary substring of a retained phrase
with strictly more words. -/
def NoNest (out : List Str) : Prop :=
  ∀ p ∈ out, ∀ q ∈ out, word_count p < word_count q →
    isSubstr (' ' :: stripStr (lowerStr p) ++ [' '])
      (' ' :: stripStr (lowerStr q) ++ [' ']) = false

theorem sortDescBy_sorted (f : α → ℕ) (l : List α) :
    (sortDescBy f l).Sorted (fun a b => f b ≤ f a) := by
  haveI : IsTotal α (fun a b => f b ≤ f a) := ⟨fun a b => le_total (f b) (f a)⟩
  haveI : IsTrans α (fun a b => f b ≤ f a) := ⟨fun _ _ _ hab hbc => le_trans hbc hab⟩
  exact List.sorted_insertionSort _ l

theorem sortDescBy_perm (f : α → ℕ) (l : List α) :
    (sortDescBy f l).Perm l := List.perm_insertionSort _ l

theorem subphrase_check_false {p : Str} {kept : List Str}
    (h : subphrase_check p kept = false) :
    ∀ e ∈ kept, word_count p < word_count e →
      isSubstr (' ' :: stripStr (lowerStr p) ++ [' '])
        (' ' :: stripStr (lowerStr e) ++ [' ']) = false := by
  intro e he hwc
  by_contra hsub
  rw [Bool.not_eq_false] at hsub
  have hc : (fun e => decide ((splitWs (stripStr (lowerStr p))).length <
      (splitWs (stripStr (lowerStr e))).length) &&
      isSubstr (' ' :: stripStr (lowerStr p) ++ [' '])
        (' ' :: stripStr (lowerStr e) ++ [' '])) e = true := by
    rw [Bool.and_eq_true]
    refine ⟨decide_eq_true ?_, hsub⟩
    rw [word_count_strip_lower, word_count_strip_lower]
    exact hwc
  have : subphrase_check p kept = true := by
    unfold subphrase_check
    exact List.any_eq_true.2 ⟨e, he, hc⟩
  rw [h] at this
  exact Bool.false_ne_true this

theorem remove_true_go_invariant :
    ∀ (rest kept : List Str),
      List.Sorted (fun a b => word_count b ≤ word_count a) rest →
      (∀ a ∈ kept, ∀ b ∈ rest, word_count b ≤ word_count a) →
      NoNest kept →
      NoNest (remove_true_go kept rest) := by
  intro rest
  induction rest with
  | nil => intro kept _ _ hn; exact hn
  | cons p rest' ih =>
    intro kept hs hdom hn
    rw [List.sorted_cons] at hs
    unfold remove_true_go
    by_cases hchk : subphrase_check p kept = true
    · rw [if_pos hchk]
      exact ih kept hs.2
        (fun a ha b hb => hdom a ha b (List.mem_cons_of_mem p hb)) hn
    · rw [Bool.not_eq_true] at hchk
      rw [if_neg (by rw [hchk]; exact Bool.false_ne_true)]
      refine ih (kept ++ [p]) hs.2 ?_ ?_
      · intro a ha b hb
        rcases List.mem_append.1 ha with ha | ha
        · exact hdom a ha b (List.mem_cons_of_mem p hb)
        · rw [List.mem_singleton.1 ha]
          exact hs.1 b hb
      · intro p1 hp1 q hq hwc
        rcases List.mem_append.1 hp1 with hp1 | hp1 <;>
          rcases List.mem_append.1 hq with hq | hq
        · exact hn p1 hp1 q hq hwc
        · rw [List.mem_singleton.1 hq] at hwc ⊢
          have := hdom p1 hp1 p (List.mem_cons_self p rest')
          omega
        · rw [List.mem_singleton.1 hp1] at hwc ⊢
          exact subphrase_check_false hchk q hq hwc
        · rw [List.mem_singleton.1 hp1, List.mem_singleton.1 hq] at hwc
          omega

theorem remove_true_subphrases_noNest (l : List Str) :
    NoNest (remove_true_subphrases l) := by
  unfold remove_true_subphrases
  split
  · rename_i hlen
    rcases l with _ | ⟨x, _ | ⟨y, t⟩⟩
    · intro p hp; simp at hp
    · intro p hp q hq hwc
      rw [List.mem_singleton.1 hp, List.mem_singleton.1 hq] at hwc
      omega
    · simp at hlen
  · exact remove_true_go_invariant (sortDescBy word_count l) []
      (sortDescBy_sorted word_count l) (by simp) (by intro p hp; simp at hp)

/-- Claim C3, amended: whenever the stopword survivors number more than
20 (so that merging and subphrase removal run), the list returned by
`filter_phrases_robust` contains no phrase whose space-padded normalised
text occurs inside the space-padded normalised text of a retained phrase
with strictly more words.  With 20 or fewer survivors no subphrase
removal is performed, and for nesting that does not respect word
boundaries, nested phrases may be retained either way
(`nested_phrase_retained_counterexample`). -/
theorem no_wordboundary_nesting_after_postprocess (phrases : List (Str × ℚ))
    (stopwords : List Str)
    (h : 20 < (stopword_survivors phrases stopwords).length) :
    ∀ p ∈ filter_phrases_robust phrases stopwords,
      ∀ q ∈ filter_phrases_robust phrases stopwords,
        word_count p < word_count q →
          isSubstr (' ' :: stripStr (lowerStr p) ++ [' '])
            (' ' :: stripStr (lowerStr q) ++ [' ']) = false := by
  unfold filter_phrases_robust
  split
  · intro p hp
    simp at hp
  · rw [if_pos h]
    exact remove_true_subphrases_noNest _

/-- Witness for `no_wordboundary_nesting_after_postprocess` at the
concrete input `exW`, whose survivors number 22, with the retained
phrases `f1 g1` (2 words) and `aa1 bb1 cc1` (3 words). -/
theorem no_wordboundary_nesting_witness :
    20 < (stopword_survivors exW [str "zz"]).length ∧
    isSubstr (' ' :: stripStr (lowerStr (str "f1 g1")) ++ [' '])
      (' ' :: stripStr (lowerStr (str "aa1 bb1 cc1")) ++ [' ']) = false :=
  ⟨by decide,
   no_wordboundary_nesting_after_postprocess exW [str "zz"] (by decide)
     (str "f1 g1") (by decide) (str "aa1 bb1 cc1") (by decide) (by decide)⟩

/-! ## The stopword-filter step invariant -/

theorem PRat.le_def (a b : PRat) : a ≤ b ↔ a.num * b.den ≤ b.num * a.den := Iff.rfl

theorem surviving_phrase_some {stopwords : List Str} {kw : Str × ℚ} {p : Str}
    (h : surviving_phrase stopwords kw = some p) :
    p = kw.1 ∧
    0 < (splitWs p).length ∧
    ((PRat.ofNat (stop_count (splitWs p) stopwords)).div
        (.ofNat (splitWs p).length) ≤
      (if 6 ≤ (splitWs p).length then
        (PRat.ofNat 5).div (.ofNat (splitWs p).length)
       else if (splitWs p).length = 5 then ⟨4, 5⟩
       else if (splitWs p).length = 4 then ⟨3, 4⟩
       else if (splitWs p).length = 3 then ⟨2, 3⟩ else ⟨1, 2⟩)) ∧
    stop_count (splitWs p) stopwords ≠ (splitWs p).length ∧
    ((splitWs p).length = 2 → stop_count (splitWs p) stopwords = 1 →
      3 ≤ (((splitWs p).find? (fun w => !decide (w ∈ stopwords))).getD []).length) := by
  simp only [surviving_phrase] at h
  by_cases hc1 : (kw.1.isEmpty || !kw.1.contains ' ') = true
  · rw [if_pos hc1] at h
    exact absurd h (by simp)
  · rw [if_neg hc1] at h
    by_cases hc2 : (splitWs kw.1).isEmpty = true
    · rw [if_pos hc2] at h
      exact absurd h (by simp)
    · rw [if_neg hc2] at h
      by_cases hc3 : 0 < (splitWs kw.1).length ∧
          (PRat.ofNat (stop_count (splitWs kw.1) stopwords)).div
            (.ofNat (splitWs kw.1).length) ≤
          (if 6 ≤ (splitWs kw.1).length then
            (PRat.ofNat 5).div (.ofNat (splitWs kw.1).length)
           else if (splitWs kw.1).length = 5 then ⟨4, 5⟩
           else if (splitWs kw.1).length = 4 then ⟨3, 4⟩
           else if (splitWs kw.1).length = 3 then ⟨2, 3⟩ else ⟨1, 2⟩)
      · rw [if_pos hc3] at h
        by_cases hc4 : stop_count (splitWs kw.1) stopwords = (splitWs kw.1).length
        · rw [if_pos hc4] at h
          exact absurd h (by simp)
        · rw [if_neg hc4] at h
          by_cases hc5 : (splitWs kw.1).length = 2 ∧
              stop_count (splitWs kw.1) stopwords = 1
          · rw [if_pos hc5] at h
            by_cases hc6 : (((splitWs kw.1).find?
                (fun w => !decide (w ∈ stopwords))).getD []).length < 3
            · rw [if_pos hc6] at h
              exact absurd h (by simp)
            · rw [if_neg hc6] at h
              injection h with h
              subst h
              exact ⟨rfl, hc3.1, hc3.2, hc4, fun _ _ => by omega⟩
          · rw [if_neg hc5] at h
            injection h with h
            subst h
            exact ⟨rfl, hc3.1, hc3.2, hc4, fun h2 h1 => absurd ⟨h2, h1⟩ hc5⟩
      · rw [if_neg hc3] at h
        exact absurd h (by simp)

/-- Claim C4, amended: whenever the stopword-filter survivors number at
most 20 (so merging does not run and the returned list is exactly the
survivor list), every retained phrase of n words has at most 1, 2, 3, 4
stopwords for n = 2, 3, 4, 5 and at most 5 for n ≥ 6, is not composed
entirely of stopwords, and a 2-word phrase with exactly one stopword has
a non-stopword word of at least 3 characters.  With more than 20
survivors, overlap-merging can build phrases that break the ceiling
(`stopword_ceiling_violated_counterexample`). -/
theorem stopword_ceiling_small_output (phrases : List (Str × ℚ))
    (stopwords : List Str)
    (h : (stopword_survivors phrases stopwords).length ≤ 20) :
    ∀ p ∈ filter_phrases_robust phrases stopwords,
      (word_count p = 2 → stop_count (splitWs p) stopwords ≤ 1) ∧
      (word_count p = 3 → stop_count (splitWs p) stopwords ≤ 2) ∧
      (word_count p = 4 → stop_count (splitWs p) stopwords ≤ 3) ∧
      (word_count p = 5 → stop_count (splitWs p) stopwords ≤ 4) ∧
      (6 ≤ word_count p → stop_count (splitWs p) stopwords ≤ 5) ∧
      stop_count (splitWs p) stopwords < word_count p ∧
      (word_count p = 2 → stop_count (splitWs p) stopwords = 1 →
        ∀ w ∈ splitWs p, w ∉ stopwords → 3 ≤ w.length) := by
  intro p hp
  unfold filter_phrases_robust at hp
  by_cases hg : (phrases.isEmpty || stopwords.isEmpty) = true
  · rw [if_pos hg] at hp
    simp at hp
  · rw [if_neg hg, if_neg (not_lt.2 h)] at hp
    obtain ⟨kw, _, hs⟩ := List.mem_filterMap.1 hp
    obtain ⟨_, hn0, hdiv, hscn, h2w⟩ := surviving_phrase_some hs
    have hsc_le : stop_count (splitWs p) stopwords ≤ (splitWs p).length :=
      List.countP_le_length _
    refine ⟨?_, ?_, ?_, ?_, ?_, ?_, ?_⟩
    · intro h2
      unfold word_count at h2
      rw [h2] at hdiv
      norm_num [PRat.le_def, PRat.div, PRat.ofNat] at hdiv
      omega
    · intro h3
      unfold word_count at h3
      rw [h3] at hdiv
      norm_num [PRat.le_def, PRat.div, PRat.ofNat] at hdiv
      omega
    · intro h4
      unfold word_count at h4
      rw [h4] at hdiv
      norm_num [PRat.le_def, PRat.div, PRat.ofNat] at hdiv
      omega
    · intro h5
      unfold word_count at h5
      rw [h5] at hdiv
      norm_num [PRat.le_def, PRat.div, PRat.ofNat] at hdiv
      omega
    · intro h6
      unfold word_count at h6
      rw [if_pos h6] at hdiv
      simp only [PRat.le_def, PRat.div, PRat.ofNat, one_mul, mul_one] at hdiv
      have hnpos : (0 : ℤ) < ((splitWs p).length : ℤ) := by exact_mod_cast hn0
      have := le_of_mul_le_mul_right hdiv hnpos
      exact_mod_cast this
    · exact lt_of_le_of_ne hsc_le hscn
    · intro h2 h1 w hw hnot
      unfold word_count at h2
      have hfx := h2w h2 h1
      obtain ⟨a, b, hab⟩ : ∃ a b, splitWs p = [a, b] := by
        rcases e : splitWs p with _ | ⟨a, _ | ⟨b, _ | ⟨c, t⟩⟩⟩ <;>
          rw [e] at h2 <;> simp at h2
        exact ⟨a, b, rfl⟩
      rw [hab] at hfx hw h1
      rw [hab]  at hsc_le
      by_cases hsa : a ∈ stopwords <;> by_cases hsb : b ∈ stopwords
      · simp [stop_count, List.countP_cons, hsa, hsb] at h1
      · have hfind : ([a, b].find? (fun w => !decide (w ∈ stopwords))) = some b := by
          simp [List.find?_cons, hsa, hsb]
        rw [hfind] at hfx
        rcases List.mem_pair.1 (by rw [← hab]; exact (hab ▸ hw)) with rfl | rfl
        · exact absurd hsa hnot
        · exact hfx
      · have hfind : ([a, b].find? (fun w => !decide (w ∈ stopwords))) = some a := by
          simp [List.find?_cons, hsa]
        rw [hfind] at hfx
        rcases List.mem_pair.1 (by rw [← hab]; exact (hab ▸ hw)) with rfl | rfl
        · exact hfx
        · exact absurd hsb hnot
      · simp [stop_count, List.countP_cons, hsa, hsb] at h1

/-- Witness for `stopword_ceiling_small_output`: a single two-word
candidate with the stopword set containing only `de` — one survivor,
which keeps fewer stopwords than words. -/
theorem stopword_ceiling_small_output_witness :
    (stopword_survivors [(str "corona maatregelen", 1)] [str "de"]).length ≤ 20 ∧
    stop_count (splitWs (str "corona maatregelen")) [str "de"] <
      word_count (str "corona maatregelen") :=
  ⟨by decide,
   (stopword_ceiling_small_output [(str "corona maatregelen", 1)] [str "de"]
     (by decide) (str "corona maatregelen") (by decide)).2.2.2.2.2.1⟩

/-! ## Counting two-word phrases through the post-processing -/

theorem remove_true_go_append : ∀ (rest kept : List Str),
    ∃ suffix, remove_true_go kept rest = kept ++ suffix ∧ suffix.Sublist rest := by
  intro rest
  induction rest with
  | nil => exact fun kept => ⟨[], by simp [remove_true_go], List.nil_sublist _⟩
  | cons p rest' ih =>
    intro kept
    unfold remove_true_go
    by_cases hchk : subphrase_check p kept = true
    · rw [if_pos hchk]
      obtain ⟨s, he, hs⟩ := ih kept
      exact ⟨s, he, hs.cons p⟩
    · rw [if_neg hchk]
      obtain ⟨s, he, hs⟩ := ih (kept ++ [p])
      exact ⟨p :: s, by rw [he]; simp, hs.cons₂ p⟩

theorem count2_remove_true (l : List Str) :
    (remove_true_subphrases l).countP (fun p => decide (word_count p = 2)) ≤
      l.countP (fun p => decide (word_count p = 2)) := by
  unfold remove_true_subphrases
  split
  · exact le_refl _
  · obtain ⟨s, he, hs⟩ := remove_true_go_append (sortDescBy word_count l) []
    rw [he, List.nil_append]
    calc s.countP _ ≤ (sortDescBy word_count l).countP _ := hs.countP_le _
      _ = l.countP _ := (sortDescBy_perm word_count l).countP_eq _

/-- The invariant of the inner merge scan: the best merge is still the
original phrase with its original lowered word count, or a genuine merge
whose recorded length is its word count and at least 3. -/
def ScanP (sorted : List Str) (i : ℕ) (pw : List Str) (st : Str × ℕ × List ℕ) : Prop :=
  (st.1 = sorted.getD i [] ∧ st.2.1 = pw.length) ∨
    (3 ≤ st.2.1 ∧ st.2.1 = (splitWs st.1).length)

theorem merge_scan_step_P_aux {sorted : List Str} {i : ℕ} {pw : List Str} {j : ℕ}
    {st : Str × ℕ × List ℕ} (hpw : 3 ≤ pw.length) (hP : ScanP sorted i pw st) :
    ScanP sorted i pw (
      match merge_two_phrases (sorted.getD i []) (sorted.getD j [])
          (find_common_sequence pw (splitWs (stripStr (lowerStr (sorted.getD j []))))) with
      | some m =>
        if st.2.1 < (splitWs m).length then
          if st.2.1 + 1 < (splitWs m).length then (m, (splitWs m).length, st.2.2 ++ [j])
          else st
        else st
      | none => st) := by
  split
  · rename_i m hm
    by_cases hlt2 : st.2.1 + 1 < (splitWs m).length
    · have hlt1 : st.2.1 < (splitWs m).length := by omega
      rw [if_pos hlt1, if_pos hlt2]
      right
      refine ⟨?_, rfl⟩
      show 3 ≤ (splitWs m).length
      rcases hP with ⟨_, hl⟩ | ⟨h3, _⟩ <;> omega
    · by_cases hlt1 : st.2.1 < (splitWs m).length
      · rw [if_pos hlt1, if_neg hlt2]
        exact hP
      · rw [if_neg hlt1]
        exact hP
  · exact hP

theorem merge_scan_step_P {sorted : List Str} {i : ℕ} {pw : List Str} {j : ℕ}
    {st : Str × ℕ × List ℕ} (hP : ScanP sorted i pw st) :
    ScanP sorted i pw (merge_scan_step sorted i pw j st) := by
  unfold merge_scan_step
  split
  · rename_i hcond
    split
    · split
      · split
        · exact merge_scan_step_P_aux hcond.1 hP
        · exact hP
      · exact hP
    · split
      · split
        · exact merge_scan_step_P_aux hcond.1 hP
        · exact hP
      · exact hP
  · exact hP

theorem merge_scan_P (sorted : List Str) (used : List ℕ) (i : ℕ) (pw : List Str) :
    ∀ (js : List ℕ) (st : Str × ℕ × List ℕ), ScanP sorted i pw st →
      ScanP sorted i pw (merge_scan sorted used i pw js st) := by
  intro js
  induction js with
  | nil => exact fun st h => h
  | cons j js ih =>
    intro st hP
    simp only [merge_scan]
    split
    · exact ih st hP
    · exact ih _ (merge_scan_step_P hP)

theorem merge_outer_count (sorted : List Str) :
    ∀ (is used : List ℕ) (out : List Str),
      ((merge_outer sorted is used out).2).countP (fun p => decide (word_count p = 2)) ≤
        out.countP (fun p => decide (word_count p = 2)) +
          is.countP (fun i => decide (word_count (sorted.getD i []) = 2)) := by
  intro is
  induction is with
  | nil => intro used out; simp [merge_outer]
  | cons i is ih =>
    intro used out
    simp only [merge_outer]
    split
    · calc ((merge_outer sorted is used out).2).countP _ ≤
          out.countP _ + is.countP _ := ih used out
        _ ≤ _ := by rw [List.countP_cons]; omega
    · have hscan := merge_scan_P sorted used i
        (splitWs (stripStr (lowerStr (sorted.getD i []))))
        (List.range sorted.length)
        (sorted.getD i [], (splitWs (stripStr (lowerStr (sorted.getD i [])))).length, [])
        (Or.inl ⟨rfl, rfl⟩)
      refine le_trans (ih _ _) ?_
      have hbest : (if decide (word_count (merge_scan sorted used i (splitWs (stripStr (lowerStr (sorted.getD i []))))
            (List.range sorted.length)
            (sorted.getD i [], (splitWs (stripStr (lowerStr (sorted.getD i [])))).length,
              [])).1 = 2) = true then 1 else 0) ≤
          (if decide (word_count (sorted.getD i []) = 2) = true then 1 else 0) := by
        rcases hscan with ⟨he, _⟩ | ⟨h3, hl⟩
        · rw [he]
        · by_cases h2 : decide (word_count (merge_scan sorted used i (splitWs (stripStr (lowerStr (sorted.getD i []))))
            (List.range sorted.length)
            (sorted.getD i [], (splitWs (stripStr (lowerStr (sorted.getD i [])))).length,
              [])).1 = 2) = true
          · exfalso
            have h2' := of_decide_eq_true h2
            unfold word_count at h2'
            omega
          · rw [if_neg h2]
            exact Nat.zero_le _
      simp only [List.countP_append, List.countP_cons, List.countP_nil,
        decide_eq_true_eq] at hbest ⊢
      omega

theorem merge_outer_used (sorted : List Str) :
    ∀ (is used : List ℕ) (out : List Str) (j : ℕ),
      (j ∈ is ∨ j ∈ used) → j ∈ (merge_outer sorted is used out).1 := by
  intro is
  induction is with
  | nil =>
    intro used out j hj
    rcases hj with hj | hj
    · simp at hj
    · simpa [merge_outer] using hj
  | cons i is ih =>
    intro used out j hj
    simp only [merge_outer]
    split
    · rename_i hi
      refine ih used out j ?_
      rcases hj with hj | hj
      · rcases List.mem_cons.1 hj with rfl | hj
        · exact Or.inr hi
        · exact Or.inl hj
      · exact Or.inr hj
    · refine ih _ _ j ?_
      rcases hj with hj | hj
      · rcases List.mem_cons.1 hj with rfl | hj
        · exact Or.inr (by simp)
        · exact Or.inl hj
      · exact Or.inr (List.mem_append_left _ hj)

theorem merge_extra_noop (sorted : List Str) (used : List ℕ) :
    ∀ (is : List ℕ) (out : List Str), (∀ i ∈ is, i ∈ used) →
      merge_extra sorted used is out = out := by
  intro is
  induction is with
  | nil => intro out _; rfl
  | cons i is ih =>
    intro out hall
    simp only [merge_extra]
    rw [if_pos (hall i (List.mem_cons_self i is))]
    exact ih out (fun j hj => hall j (List.mem_cons_of_mem i hj))

theorem countP_range_getD (p : Str → Bool) (l : List Str) :
    (List.range l.length).countP (fun i => p (l.getD i [])) = l.countP p := by
  induction l with
  | nil => rfl
  | cons x t ih =>
    rw [show (x :: t).length = t.length + 1 from rfl, List.range_succ_eq_map,
      List.countP_cons, List.countP_map]
    have : ((fun i => p ((x :: t).getD i [])) ∘ Nat.succ) =
        (fun i => p (t.getD i [])) := by
      funext i
      rfl
    rw [this, ih, List.countP_cons]
    simp [List.getD_cons_zero]

theorem count2_merge_overlapping (l : List Str) :
    (merge_overlapping_phrases l).countP (fun p => decide (word_count p = 2)) ≤
      l.countP (fun p => decide (word_count p = 2)) := by
  unfold merge_overlapping_phrases
  split
  · exact le_refl _
  · rw [merge_extra_noop _ _ _ _
      (fun i hi => merge_outer_used _ _ _ _ i (Or.inl hi))]
    calc ((merge_outer (sortDescBy word_count l)
          (List.range (sortDescBy word_count l).length) [] []).2).countP _ ≤
        ([] : List Str).countP (fun p => decide (word_count p = 2)) +
          (List.range (sortDescBy word_count l).length).countP
            (fun i => decide (word_count ((sortDescBy word_count l).getD i []) = 2)) :=
          merge_outer_count _ _ _ _
      _ = (sortDescBy word_count l).countP (fun p => decide (word_count p = 2)) := by
          rw [List.countP_nil, Nat.zero_add]
          exact countP_range_getD (fun p => decide (word_count p = 2))
            (sortDescBy word_count l)
      _ = l.countP _ := (sortDescBy_perm word_count l).countP_eq _

theorem PRat.lt_def (a b : PRat) : a < b ↔ a.num * b.den < b.num * a.den := Iff.rfl

/-- The truncation of the two-word list keeps its length within 35% of
the survivor count: `20 * |two2| ≤ 7 * n` in every branch of the cap. -/
theorem cap_bound (n : ℕ) (two : List Str) :
    20 * ((if PRat.pmin ((PRat.ofNat n).mul ⟨7, 20⟩) (.ofNat two.length) <
        PRat.ofNat two.length then
        two.take (PRat.pmin ((PRat.ofNat n).mul ⟨7, 20⟩) (.ofNat two.length)).floorNat
      else two).length) ≤ 7 * n := by
  by_cases hB : PRat.ofNat two.length < (PRat.ofNat n).mul ⟨7, 20⟩
  · have hpm : PRat.pmin ((PRat.ofNat n).mul ⟨7, 20⟩) (.ofNat two.length) =
        PRat.ofNat two.length := by
      unfold PRat.pmin
      rw [if_pos hB]
    rw [hpm]
    have hirr : ¬(PRat.ofNat two.length < PRat.ofNat two.length) := by
      rw [PRat.lt_def]
      omega
    rw [if_neg hirr]
    have hB' : (two.length : ℤ) * (1 * 20) < ((n : ℤ) * 7) * 1 := hB
    omega
  · have hpm : PRat.pmin ((PRat.ofNat n).mul ⟨7, 20⟩) (.ofNat two.length) =
        (PRat.ofNat n).mul ⟨7, 20⟩ := by
      unfold PRat.pmin
      rw [if_neg hB]
    rw [hpm]
    by_cases htr : (PRat.ofNat n).mul ⟨7, 20⟩ < PRat.ofNat two.length
    · rw [if_pos htr]
      have hfl : ((PRat.ofNat n).mul ⟨7, 20⟩).floorNat = 7 * n / 20 := by
        unfold PRat.floorNat PRat.mul PRat.ofNat
        have h7 : ((n : ℤ) * 7).toNat = 7 * n := by omega
        have h20 : ((1 : ℤ) * 20).toNat = 20 := by omega
        simp only []
        rw [h7, h20]
      rw [List.length_take, hfl]
      omega
    · rw [if_neg htr]
      have htr' : ¬(((n : ℤ) * 7) * 1 < (two.length : ℤ) * (1 * 20)) := htr
      omega

/-- Claim C5, amended: whenever the per-candidate stopword filtering
leaves more than 20 surviving phrases, the finally returned list holds
at most 35% × (surviving count) two-word phrases (`20·count ≤ 7·n`):
the balancing step truncates the two-word list to that cap, and neither
overlap-merging (which only produces phrases of 3 or more words beyond
the originals) nor subphrase removal adds two-word entries.  However,
surviving phrases of 3 or more words can be dropped by overlap-merging
or subphrase removal, so the final list need not contain every 3+-word
survivor (`threeword_survivor_dropped_counterexample`). -/
theorem two_word_cap_final_output (phrases : List (Str × ℚ)) (stopwords : List Str)
    (h : 20 < (stopword_survivors phrases stopwords).length) :
    20 * ((filter_phrases_robust phrases stopwords).countP
        (fun p => decide (word_count p = 2))) ≤
      7 * (stopword_survivors phrases stopwords).length := by
  by_cases hg : (phrases.isEmpty || stopwords.isEmpty) = true
  · have hout : filter_phrases_robust phrases stopwords = [] := by
      unfold filter_phrases_robust
      rw [if_pos hg]
    rw [hout]
    simp
  · have hout : filter_phrases_robust phrases stopwords =
        remove_true_subphrases (merge_overlapping_phrases
          ((stopword_survivors phrases stopwords).filter
              (fun p => decide (4 ≤ word_count p)) ++
            (stopword_survivors phrases stopwords).filter
              (fun p => decide (word_count p = 3)) ++
            (if PRat.pmin ((PRat.ofNat (stopword_survivors phrases stopwords).length).mul
                  ⟨7, 20⟩)
                (.ofNat ((stopword_survivors phrases stopwords).filter
                  (fun p => decide (word_count p = 2))).length) <
                PRat.ofNat ((stopword_survivors phrases stopwords).filter
                  (fun p => decide (word_count p = 2))).length then
              ((stopword_survivors phrases stopwords).filter
                (fun p => decide (word_count p = 2))).take
                (PRat.pmin ((PRat.ofNat (stopword_survivors phrases stopwords).length).mul
                    ⟨7, 20⟩)
                  (.ofNat ((stopword_survivors phrases stopwords).filter
                    (fun p => decide (word_count p = 2))).length)).floorNat
            else (stopword_survivors phrases stopwords).filter
              (fun p => decide (word_count p = 2))))) := by
      unfold filter_phrases_robust
      rw [if_neg hg, if_pos h]
    rw [hout]
    have hchain := le_trans (count2_remove_true _) (count2_merge_overlapping
      ((stopword_survivors phrases stopwords).filter
          (fun p => decide (4 ≤ word_count p)) ++
        (stopword_survivors phrases stopwords).filter
          (fun p => decide (word_count p = 3)) ++
        (if PRat.pmin ((PRat.ofNat (stopword_survivors phrases stopwords).length).mul
              ⟨7, 20⟩)
            (.ofNat ((stopword_survivors phrases stopwords).filter
              (fun p => decide (word_count p = 2))).length) <
            PRat.ofNat ((stopword_survivors phrases stopwords).filter
              (fun p => decide (word_count p = 2))).length then
          ((stopword_survivors phrases stopwords).filter
            (fun p => decide (word_count p = 2))).take
            (PRat.pmin ((PRat.ofNat (stopword_survivors phrases stopwords).length).mul
                ⟨7, 20⟩)
              (.ofNat ((stopword_survivors phrases stopwords).filter
                (fun p => decide (word_count p = 2))).length)).floorNat
        else (stopword_survivors phrases stopwords).filter
          (fun p => decide (word_count p = 2)))))
    rw [List.countP_append, List.countP_append] at hchain
    have hlng : ((stopword_survivors phrases stopwords).filter
        (fun p => decide (4 ≤ word_count p))).countP
        (fun p => decide (word_count p = 2)) = 0 := by
      rw [List.countP_eq_zero]
      intro p hp
      have h4 := of_decide_eq_true (List.mem_filter.1 hp).2
      simp only [decide_eq_true_eq]
      omega
    have hmed : ((stopword_survivors phrases stopwords).filter
        (fun p => decide (word_count p = 3))).countP
        (fun p => decide (word_count p = 2)) = 0 := by
      rw [List.countP_eq_zero]
      intro p hp
      have h3 := of_decide_eq_true (List.mem_filter.1 hp).2
      simp only [decide_eq_true_eq]
      omega
    have hct := List.countP_le_length (p := fun p => decide (word_count p = 2))
      (l := (if PRat.pmin ((PRat.ofNat (stopword_survivors phrases stopwords).length).mul
            ⟨7, 20⟩)
          (.ofNat ((stopword_survivors phrases stopwords).filter
            (fun p => decide (word_count p = 2))).length) <
          PRat.ofNat ((stopword_survivors phrases stopwords).filter
            (fun p => decide (word_count p = 2))).length then
        ((stopword_survivors phrases stopwords).filter
          (fun p => decide (word_count p = 2))).take
          (PRat.pmin ((PRat.ofNat (stopword_survivors phrases stopwords).length).mul
              ⟨7, 20⟩)
            (.ofNat ((stopword_survivors phrases stopwords).filter
              (fun p => decide (word_count p = 2))).length)).floorNat
      else (stopword_survivors phrases stopwords).filter
        (fun p => decide (word_count p = 2))))
    have hcap := cap_bound (stopword_survivors phrases stopwords).length
      ((stopword_survivors phrases stopwords).filter
        (fun p => decide (word_count p = 2)))
    omega

/-- Witness for `two_word_cap_final_output` at the concrete input `exW`
with 22 survivors. -/
theorem two_word_cap_final_output_witness :
    20 < (stopword_survivors exW [str "zz"]).length ∧
    20 * ((filter_phrases_robust exW [str "zz"]).countP
        (fun p => decide (word_count p = 2))) ≤
      7 * (stopword_survivors exW [str "zz"]).length :=
  ⟨by decide, two_word_cap_final_output exW [str "zz"] (by decide)⟩
